import Mathlib

/-!
Verification of the swaggergenerator3 schema-inference engine.

This file gives a shallow embedding of the core of the repository
(swaggergenerator3/paths.py and swaggergenerator3/__init__.py) and proves
properties of the embedded functions.  Paths are modelled as lists of
characters, path segments as lists of characters, JSON-representable
values as an inductive type, and Python dicts as insertion-ordered
association lists.  Python exceptions are modelled with an Except monad
over an explicit error kind.
-/

set_option maxHeartbeats 1000000
set_option linter.unusedVariables false

namespace Swagger

/-- Error kinds corresponding to the Python exceptions that can escape the
embedded functions: EmptyExampleArrayError, IndexError (tuple index out of
range in Generator.get_components), KeyError (missing dict key) and
TypeError/AttributeError (an operation applied to a value of the wrong
type). -/
inductive GenError where
  | emptyArray
  | indexError
  | keyError
  | typeError
deriving Repr, DecidableEq

/-- JSON-representable Python values: None, bool, numbers, str, list, dict.
Dicts are insertion-ordered association lists with string keys, mirroring
Python dict semantics. -/
inductive Json where
  | null : Json
  | bool : Bool → Json
  | num : Int → Json
  | str : String → Json
  | arr : List Json → Json
  | obj : List (String × Json) → Json
deriving Repr

mutual

/-- Decidable equality for Json values (deriving does not handle the nested
inductive). -/
def Json.decEq : (a b : Json) → Decidable (a = b)
  | .null, .null => .isTrue rfl
  | .bool a, .bool b =>
      if h : a = b then .isTrue (congrArg Json.bool h)
      else .isFalse (fun he => h (Json.bool.inj he))
  | .num a, .num b =>
      if h : a = b then .isTrue (congrArg Json.num h)
      else .isFalse (fun he => h (Json.num.inj he))
  | .str a, .str b =>
      if h : a = b then .isTrue (congrArg Json.str h)
      else .isFalse (fun he => h (Json.str.inj he))
  | .arr a, .arr b =>
      match Json.decEqList a b with
      | .isTrue h => .isTrue (congrArg Json.arr h)
      | .isFalse h => .isFalse (fun he => h (Json.arr.inj he))
  | .obj a, .obj b =>
      match Json.decEqKV a b with
      | .isTrue h => .isTrue (congrArg Json.obj h)
      | .isFalse h => .isFalse (fun he => h (Json.obj.inj he))
  | .null, .bool _ => .isFalse (fun h => Json.noConfusion h)
  | .null, .num _ => .isFalse (fun h => Json.noConfusion h)
  | .null, .str _ => .isFalse (fun h => Json.noConfusion h)
  | .null, .arr _ => .isFalse (fun h => Json.noConfusion h)
  | .null, .obj _ => .isFalse (fun h => Json.noConfusion h)
  | .bool _, .null => .isFalse (fun h => Json.noConfusion h)
  | .bool _, .num _ => .isFalse (fun h => Json.noConfusion h)
  | .bool _, .str _ => .isFalse (fun h => Json.noConfusion h)
  | .bool _, .arr _ => .isFalse (fun h => Json.noConfusion h)
  | .bool _, .obj _ => .isFalse (fun h => Json.noConfusion h)
  | .num _, .null => .isFalse (fun h => Json.noConfusion h)
  | .num _, .bool _ => .isFalse (fun h => Json.noConfusion h)
  | .num _, .str _ => .isFalse (fun h => Json.noConfusion h)
  | .num _, .arr _ => .isFalse (fun h => Json.noConfusion h)
  | .num _, .obj _ => .isFalse (fun h => Json.noConfusion h)
  | .str _, .null => .isFalse (fun h => Json.noConfusion h)
  | .str _, .bool _ => .isFalse (fun h => Json.noConfusion h)
  | .str _, .num _ => .isFalse (fun h => Json.noConfusion h)
  | .str _, .arr _ => .isFalse (fun h => Json.noConfusion h)
  | .str _, .obj _ => .isFalse (fun h => Json.noConfusion h)
  | .arr _, .null => .isFalse (fun h => Json.noConfusion h)
  | .arr _, .bool _ => .isFalse (fun h => Json.noConfusion h)
  | .arr _, .num _ => .isFalse (fun h => Json.noConfusion h)
  | .arr _, .str _ => .isFalse (fun h => Json.noConfusion h)
  | .arr _, .obj _ => .isFalse (fun h => Json.noConfusion h)
  | .obj _, .null => .isFalse (fun h => Json.noConfusion h)
  | .obj _, .bool _ => .isFalse (fun h => Json.noConfusion h)
  | .obj _, .num _ => .isFalse (fun h => Json.noConfusion h)
  | .obj _, .str _ => .isFalse (fun h => Json.noConfusion h)
  | .obj _, .arr _ => .isFalse (fun h => Json.noConfusion h)

/-- Decidable equality for lists of Json values. -/
def Json.decEqList : (a b : List Json) → Decidable (a = b)
  | [], [] => .isTrue rfl
  | [], _ :: _ => .isFalse (fun h => List.noConfusion h)
  | _ :: _, [] => .isFalse (fun h => List.noConfusion h)
  | a :: as, b :: bs =>
      match Json.decEq a b with
      | .isTrue h1 =>
          match Json.decEqList as bs with
          | .isTrue h2 => .isTrue (by rw [h1, h2])
          | .isFalse h2 => .isFalse (fun he => h2 (List.cons.inj he).2)
      | .isFalse h1 => .isFalse (fun he => h1 (List.cons.inj he).1)

/-- Decidable equality for dict entry lists. -/
def Json.decEqKV : (a b : List (String × Json)) → Decidable (a = b)
  | [], [] => .isTrue rfl
  | [], _ :: _ => .isFalse (fun h => List.noConfusion h)
  | _ :: _, [] => .isFalse (fun h => List.noConfusion h)
  | (k1, v1) :: as, (k2, v2) :: bs =>
      if hk : k1 = k2 then
        match Json.decEq v1 v2 with
        | .isTrue h1 =>
            match Json.decEqKV as bs with
            | .isTrue h2 => .isTrue (by rw [hk, h1, h2])
            | .isFalse h2 => .isFalse (fun he => h2 (List.cons.inj he).2)
        | .isFalse h1 =>
            .isFalse (fun he => h1 (congrArg Prod.snd (List.cons.inj he).1))
      else .isFalse (fun he => hk (congrArg Prod.fst (List.cons.inj he).1))

end

instance : DecidableEq Json := Json.decEq

namespace Json

/-- Tests whether a value is a mapping, as isinstance(v, collections.Mapping)
does in update_dict. -/
def isObj : Json → Bool
  | .obj _ => true
  | _ => false

end Json

/-- Lookup in an insertion-ordered dict (Python d.get(k) / d[k] success case). -/
def jdictGet : List (String × Json) → String → Option Json
  | [], _ => none
  | (k, v) :: rest, key => if k = key then some v else jdictGet rest key

/-- Assignment d[k] = v on an insertion-ordered Python dict: an existing key
keeps its position, a new key is appended at the end. -/
def jdictSet : List (String × Json) → String → Json → List (String × Json)
  | [], key, val => [(key, val)]
  | (k, v) :: rest, key, val =>
      if k = key then (key, val) :: rest else (k, v) :: jdictSet rest key val

/-- Lookup on a Json value that is expected to be a dict. -/
def jget (j : Json) (key : String) : Option Json :=
  match j with
  | .obj kvs => jdictGet kvs key
  | _ => none

/-- Python truthiness of a JSON-representable value, as used by
conditions such as if request.data and if params. -/
def pyTruthy : Json → Bool
  | .null => false
  | .bool b => b
  | .num n => n != 0
  | .str s => decide (s ≠ "")
  | .arr l => decide (l ≠ [])
  | .obj l => decide (l ≠ [])

/-- Path segments are lists of characters (a piece of a URL path between
slashes). -/
abbrev Seg := List Char

/-- Path components: each entry is either a literal segment or a parameter
slot (None in the Python source). -/
abbrev Components := List (Option Seg)

/-!  Embedding of swaggergenerator3/paths.py  -/

/-- Matching of the compiled regular expression r'^\x7b.+\x7d$'
(Generator.param_pattern) against a segment, via re.match.  The dot does
not match a newline, and the dollar anchor also matches just before a
single trailing newline. -/
def param_pattern_match (s : Seg) : Bool :=
  let core := if s.getLast? = some '\n' then s.dropLast else s
  match core with
  | c :: rest =>
      decide (c = '{') &&
        (if rest.getLast? = some '}' then
          decide (rest.dropLast ≠ []) && !rest.dropLast.contains '\n'
        else false)
  | [] => false

/-- Python str.isdigit restricted to ASCII digits: non-empty and all digits.
(The Python predicate also accepts some non-ASCII digit characters; path
segments here are ASCII.) -/
def py_isdigit (s : Seg) : Bool :=
  decide (s ≠ []) && s.all Char.isDigit

/-- Generator.is_param: a segment is a parameter if it matches the template
placeholder pattern or is all digits.  The path argument is unused by the
default implementation, exactly as in the source. -/
def is_param (ex : Seg) (path : List Char) : Bool :=
  param_pattern_match ex || py_isdigit ex

/-- Decimal digit characters of a natural number, as produced by the Python
str formatting of an int ("%s" on an int). -/
def natDigits (n : Nat) : List Char := Nat.toDigits 10 n

/-- Rendering of one parameter slot: the string produced by
"\x7bparam%s\x7d" % i in build_paramaterized_path. -/
def paramSeg (i : Nat) : Seg :=
  '{' :: ("param".data ++ natDigits i ++ ['}'])

/-- Helper of build_paramaterized_path: renders components to segments,
replacing the j-th parameter slot (1-indexed) by the rendered placeholder.
The accumulator i is the number of slots already rendered. -/
def renderComponents (i : Nat) : Components → List Seg
  | [] => []
  | some s :: rest => s :: renderComponents i rest
  | none :: rest => paramSeg (i + 1) :: renderComponents (i + 1) rest

/-- paths.build_paramaterized_path: a slash followed by the slash-joined
rendered components. -/
def build_paramaterized_path (components : Components) : List Char :=
  '/' :: List.intercalate ['/'] (renderComponents 0 components)

/-- paths.component_matches: False when the lengths differ; otherwise every
position must have equal entries or a parameter slot on the second side. -/
def component_matches (c1 c2 : Components) : Bool :=
  if c1.length ≠ c2.length then false
  else (c1.zip c2).all (fun e => decide (e.1 = e.2) || decide (e.2 = none))

mutual

/-- paths.update_dict(d, u): iterate the items of u; for a mapping value
recurse into d.get(k, empty dict), otherwise assign d[k] = v.  A non-mapping
u fails (u.items() raises), and a non-mapping d fails as soon as an item is
processed (d.get / item assignment raises). -/
def update_dict (d u : Json) : Except GenError Json :=
  match u with
  | .obj us => update_dict_go d us
  | _ => .error .typeError

/-- Loop body of update_dict over the remaining items of u. -/
def update_dict_go (d : Json) : List (String × Json) → Except GenError Json
  | [] => .ok d
  | (k, v) :: rest =>
      match v with
      | .obj vo =>
          match d with
          | .obj dkvs => do
              let sub := (jdictGet dkvs k).getD (.obj [])
              let merged ← update_dict_go sub vo
              update_dict_go (.obj (jdictSet dkvs k merged)) rest
          | _ => .error .typeError
      | _ =>
          match d with
          | .obj dkvs => update_dict_go (.obj (jdictSet dkvs k v)) rest
          | _ => .error .typeError

end

/-!  Embedding of the Generator class (swaggergenerator3/__init__.py)  -/

/-- Configuration of a Generator instance.  The validate field models the
external flex.core.validate capability (true means validation succeeded,
false means it raised a ValidationError, which the source swallows);
parseQueryValue models the external ast.literal_eval / json.loads parsing
chain of get_request_query_params_with_data_type, falling back to the
raw string. -/
structure Config where
  base_path : List Char := []
  definitions : List (String × Json) := []
  default : Option Json := none
  query_key_blacklist : List String := []
  validate : Json → Json → Bool := fun _ _ => false
  parseQueryValue : String → Json := Json.str

/-- Generator.get_components: split the path on slashes, replace parameter
segments by None, strip the base-path prefix when it matches, then drop a
leading empty segment.  Accessing components[0] on an empty tuple raises
IndexError, which the source does not guard against. -/
def get_components (cfg : Config) (path : List Char) : Except GenError Components :=
  let components : Components :=
    (path.splitOn '/').map (fun e => if is_param e path then none else some e)
  let base : List Seg := cfg.base_path.splitOn '/'
  let components :=
    if components.take base.length = base.map some
    then components.drop base.length else components
  match components with
  | [] => .error .indexError
  | some s :: rest => .ok (if s = [] then rest else some s :: rest)
  | none :: rest => .ok (none :: rest)

/-- Bucket update of the naive grouping pass: component_examples is a
defaultdict(list), so component_examples[components].extend(exs) extends an
existing bucket in place or appends a fresh one at the end. -/
def extendBucket {α : Type} (acc : List (Components × List α))
    (c : Components) (exs : List α) : List (Components × List α) :=
  if acc.any (fun p => decide (p.1 = c))
  then acc.map (fun p => if p.1 = c then (p.1, p.2 ++ exs) else p)
  else acc ++ [(c, exs)]

/-- First pass of Generator.merge_examples: group all examples by the naive
component tuple of their raw path. -/
def naive_group {α : Type} (cfg : Config) (pte : List (List Char × List α)) :
    Except GenError (List (Components × List α)) :=
  pte.foldlM (fun acc pe => do
    let c ← get_components cfg pe.1
    .ok (extendBucket acc c pe.2)) []

/-- One iteration of the refinement pass of Generator.merge_examples for the
snapshot key c1: scan the current buckets in order for the first distinct
bucket c2 with component_matches c1 c2; on a match pop c1 and extend c2 with
its examples, otherwise leave the buckets unchanged. -/
def refine_step {α : Type} (D : List (Components × List α)) (c1 : Components) :
    List (Components × List α) :=
  match D.find? (fun p => decide (p.1 ≠ c1) && component_matches c1 p.1) with
  | none => D
  | some p2 =>
      let exs1 := ((D.find? (fun p => decide (p.1 = c1))).map (fun p => p.2)).getD []
      (D.filter (fun p => decide (p.1 ≠ c1))).map
        (fun p => if p.1 = p2.1 then (p.1, p.2 ++ exs1) else p)

/-- Refinement pass of Generator.merge_examples: iterate over a snapshot of
the bucket keys (component_examples.copy()) applying refine_step. -/
def refine_pass {α : Type} (D : List (Components × List α)) :
    List (Components × List α) :=
  (D.map (fun p => p.1)).foldl refine_step D

/-- Assignment into the final dict comprehension of merge_examples: a repeated
templated path overwrites in place, a fresh one is appended. -/
def pathSet {α : Type} (acc : List (List Char × List α)) (k : List Char)
    (v : List α) : List (List Char × List α) :=
  if acc.any (fun p => decide (p.1 = k))
  then acc.map (fun p => if p.1 = k then (k, v) else p)
  else acc ++ [(k, v)]

/-- Generator.merge_examples: naive grouping, refinement pass, then the final
dict comprehension keyed by the templated path. -/
def merge_examples {α : Type} (cfg : Config) (pte : List (List Char × List α)) :
    Except GenError (List (List Char × List α)) := do
  let D ← naive_group cfg pte
  let R := refine_pass D
  .ok (R.foldl (fun acc ce => pathSet acc (build_paramaterized_path ce.1) ce.2) [])

/-- Generator.get_swagger_type: resolves the swagger type tag of a value;
booleans are checked before numbers because bool is a subtype of int in
Python. -/
def get_swagger_type : Json → String
  | .obj _ => "object"
  | .bool _ => "boolean"
  | .num _ => "number"
  | .arr _ => "array"
  | .str _ => "string"
  | .null => "null"

mutual

/-- Generator.generate_schema: structural schema of an example value.  An
object recurses into every property and adds additionalProperties = False;
an array raises EmptyExampleArrayError when empty and otherwise samples its
first element. -/
def generate_schema : Json → Except GenError Json
  | .null => .ok (.obj [("type", .str "null")])
  | .bool b => .ok (.obj [("type", .str "boolean")])
  | .num n => .ok (.obj [("type", .str "number")])
  | .str s => .ok (.obj [("type", .str "string")])
  | .arr [] => .error .emptyArray
  | .arr (x :: xs) => do
      let items ← generate_schema x
      .ok (.obj [("type", .str "array"), ("items", items)])
  | .obj kvs => do
      let props ← generate_schema_props kvs
      .ok (.obj [("type", .str "object"), ("additionalProperties", .bool false),
                 ("properties", .obj props)])

/-- Property map of generate_schema on an object, in insertion order; the
first failing property propagates its error as the Python dict comprehension
does. -/
def generate_schema_props : List (String × Json) → Except GenError (List (String × Json))
  | [] => .ok []
  | (k, v) :: rest => do
      let s ← generate_schema v
      let r ← generate_schema_props rest
      .ok ((k, s) :: r)

end

mutual

/-- Generator.generate_type_params: like generate_schema but without the
additionalProperties marker, used for typed query parameters. -/
def generate_type_params : Json → Except GenError Json
  | .null => .ok (.obj [("type", .str "null")])
  | .bool b => .ok (.obj [("type", .str "boolean")])
  | .num n => .ok (.obj [("type", .str "number")])
  | .str s => .ok (.obj [("type", .str "string")])
  | .arr [] => .error .emptyArray
  | .arr (x :: xs) => do
      let items ← generate_type_params x
      .ok (.obj [("type", .str "array"), ("items", items)])
  | .obj kvs => do
      let props ← generate_type_params_props kvs
      .ok (.obj [("type", .str "object"), ("properties", .obj props)])

/-- Property map of generate_type_params on an object. -/
def generate_type_params_props : List (String × Json) → Except GenError (List (String × Json))
  | [] => .ok []
  | (k, v) :: rest => do
      let s ← generate_type_params v
      let r ← generate_type_params_props rest
      .ok ((k, s) :: r)

end

/-- Generator.merge_response_schema: delegates to paths.update_dict with the
freshly generated schema on the left and the previously stored schema on the
right, so the right (older) side wins on leaves. -/
def merge_response_schema (schema1 schema2 : Json) : Except GenError Json :=
  update_dict schema1 schema2

/-- Generator.generate_response_params(response, params): builds the response
entry for one example; when a previous entry exists (a truthy params dict)
its schema is merged in via merge_response_schema. -/
def generate_response_params (response : Json) (params : Json) : Except GenError Json := do
  let s ← generate_schema response
  if pyTruthy params then
    match params with
    | .obj pk =>
        match jdictGet pk "schema" with
        | some ps => do
            let m ← merge_response_schema s ps
            .ok (.obj [("schema", m), ("description", .str "TODO")])
        | none => .error .keyError
    | _ => .error .typeError
  else
    .ok (.obj [("schema", s), ("description", .str "TODO")])

/-- An HTTP request as the Generator sees it after flex normalization: the
query is already in parsed key-value form (urllib parse_qsl is an external
collaborator) and data is the optional JSON body. -/
structure Request where
  method : String
  query : List (String × String) := []
  data : Option Json := none
deriving Repr, DecidableEq

/-- A sample api interaction (the Example namedtuple), flattened to the
fields the generation pipeline reads. -/
structure Example where
  request : Request
  status_code : String
  content_type : String := "application/json"
  respData : Json := .null
  description : String := ""
  summary : String := ""
deriving Repr, DecidableEq

/-- Generator.get_request_query_params_with_data_type: type the query values
through the external parsing chain, deduplicating keys dict-style. -/
def get_request_query_params_with_data_type (cfg : Config)
    (items : List (String × String)) : List (String × Json) :=
  items.foldl (fun acc kv => jdictSet acc kv.1 (cfg.parseQueryValue kv.2)) []

/-- Python dict.update on two Json dicts, used for query_param.update(schema_type). -/
def pyDictUpdate (d u : Json) : Json :=
  match d, u with
  | .obj dk, .obj uk => .obj (uk.foldl (fun acc kv => jdictSet acc kv.1 kv.2) dk)
  | _, _ => d

/-- Name of a parameter dict (param['name']); parameters are always built
with a string name. -/
def pname (p : Json) : String :=
  match jget p "name" with
  | some (.str s) => s
  | _ => ""

/-- Tests param['in'] == 'query'. -/
def isQuery (p : Json) : Bool :=
  decide (jget p "in" = some (.str "query"))

/-- Assignment param['required'] = False. -/
def set_required_false (p : Json) : Json :=
  match p with
  | .obj kvs => .obj (jdictSet kvs "required" (.bool false))
  | _ => p

/-- Loop of Generator.merge_query_params over params1, threading the dict of
not-yet-matched query parameters of params2: a query parameter of params1
whose name is still present pops it and is kept unchanged, otherwise it is
marked not required. -/
def merge_loop : List Json → List (String × Json) → List Json × List (String × Json)
  | [], qp2 => ([], qp2)
  | p :: rest, qp2 =>
      if isQuery p then
        if qp2.any (fun kv => decide (kv.1 = pname p)) then
          let r := merge_loop rest (qp2.eraseP (fun kv => decide (kv.1 = pname p)))
          (p :: r.1, r.2)
        else
          let r := merge_loop rest qp2
          (set_required_false p :: r.1, r.2)
      else
        let r := merge_loop rest qp2
        (p :: r.1, r.2)

/-- Generator.merge_query_params(params1, params2): params1 are the newly
generated parameters, params2 the previously accumulated ones; leftover
query parameters of params2 are appended marked not required. -/
def merge_query_params (params1 params2 : List Json) : List Json :=
  let qp2 := params2.foldl
    (fun acc p => if isQuery p then jdictSet acc (pname p) p else acc) []
  let r := merge_loop params1 qp2
  r.1 ++ r.2.map (fun kv => set_required_false kv.2)

/-- Path parameter dicts of generate_request_params: one required string
parameter per parameter slot, named positionally. -/
def mkPathParams : Nat → Components → List Json
  | _, [] => []
  | i, none :: rest =>
      (.obj [("name", .str ("param" ++ (natDigits (i + 1)).asString)),
             ("in", .str "path"), ("required", .bool true),
             ("type", .str "string")]) :: mkPathParams (i + 1) rest
  | i, some _ :: rest => mkPathParams i rest

/-- Generator.generate_request_params: build query parameters (each initially
required, typed via generate_type_params, dropped when blacklisted), then
positional path parameters, then an optional body parameter; when a previous
parameter list exists, merge via merge_query_params. -/
def generate_request_params (cfg : Config) (path : List Char) (req : Request)
    (params : List Json) : Except GenError (List Json) := do
  let qd := get_request_query_params_with_data_type cfg req.query
  let queryParams ← qd.foldlM (fun acc kv => do
      let st ← generate_type_params kv.2
      let qp := pyDictUpdate
        (.obj [("name", .str kv.1), ("in", .str "query"), ("required", .bool true)]) st
      .ok (if cfg.query_key_blacklist.contains kv.1 then acc else acc ++ [qp])) []
  let comps ← get_components cfg path
  let pathParams := mkPathParams 0 comps
  let parameters ← match req.data with
    | some d =>
        if pyTruthy d then do
          let s ← generate_schema d
          .ok (queryParams ++ pathParams ++
               [Json.obj [("name", .str "body_data"), ("in", .str "body"), ("schema", s)]])
        else .ok (queryParams ++ pathParams)
    | none => .ok (queryParams ++ pathParams)
  .ok (if params ≠ [] then merge_query_params parameters params else parameters)

/-- Lowercasing of one ASCII character, as Python str.lower acts on the
characters of an HTTP method name. -/
def charLower (c : Char) : Char :=
  match c with
  | 'A' => 'a' | 'B' => 'b' | 'C' => 'c' | 'D' => 'd' | 'E' => 'e' | 'F' => 'f'
  | 'G' => 'g' | 'H' => 'h' | 'I' => 'i' | 'J' => 'j' | 'K' => 'k' | 'L' => 'l'
  | 'M' => 'm' | 'N' => 'n' | 'O' => 'o' | 'P' => 'p' | 'Q' => 'q' | 'R' => 'r'
  | 'S' => 's' | 'T' => 't' | 'U' => 'u' | 'V' => 'v' | 'W' => 'w' | 'X' => 'x'
  | 'Y' => 'y' | 'Z' => 'z' | c => c

/-- Python str.lower on an ASCII method name. -/
def pyLower (s : String) : String := String.mk (s.data.map charLower)

/-- Per-verb schema object built by Generator.generate_path: the responses
dict, description, summary and the parameter list (absent until a JSON
example is seen for the verb). -/
structure Operation where
  responses : List (String × Json) := []
  description : String := "TODO"
  summary : String := ""
  parameters : Option (List Json) := none
deriving Repr, DecidableEq

/-- Lookup of a verb in the per-path schema dict. -/
def opGet : List (String × Operation) → String → Option Operation
  | [], _ => none
  | (k, v) :: rest, key => if k = key then some v else opGet rest key

/-- Assignment of a verb entry, dict-style. -/
def opSet : List (String × Operation) → String → Operation → List (String × Operation)
  | [], key, val => [(key, val)]
  | (k, v) :: rest, key, val =>
      if k = key then (key, val) :: rest else (k, v) :: opSet rest key val

/-- Processing of one example inside Generator.generate_path: update the
description and summary, and for JSON content generate the response entry
(catching EmptyExampleArrayError only around the response generation) and
regenerate the parameter list; finally install the default response when
configured. -/
def generate_path_step (cfg : Config) (path : List Char)
    (schema : List (String × Operation)) (ex : Example) :
    Except GenError (List (String × Operation)) := do
  let verb := pyLower ex.request.method
  let op0 := (opGet schema verb).getD {}
  let op1 := { op0 with
    description := if ex.description = "" then "TODO" else ex.description,
    summary := ex.summary }
  let op2 ←
    if ex.content_type = "application/json" then do
      let prev := (jdictGet op1.responses ex.status_code).getD (.obj [])
      let opR ← match generate_response_params ex.respData prev with
        | .ok r => .ok { op1 with responses := jdictSet op1.responses ex.status_code r }
        | .error .emptyArray => .ok op1
        | .error e => .error e
      let ps ← generate_request_params cfg path ex.request (opR.parameters.getD [])
      .ok { opR with parameters := some ps }
    else .ok op1
  let op3 := match cfg.default with
    | some d => { op2 with responses := jdictSet op2.responses "default" d }
    | none => op2
  .ok (opSet schema verb op3)

/-- Generator.generate_path: fold the examples of one merged route into the
per-verb schema dict. -/
def generate_path (cfg : Config) (path : List Char) (exs : List Example) :
    Except GenError (List (String × Operation)) :=
  exs.foldlM (generate_path_step cfg path) []

/-- Python len(body): defined for sequences, strings and mappings, a
TypeError otherwise. -/
def pyLen : Json → Except GenError Nat
  | .arr l => .ok l.length
  | .obj kvs => .ok kvs.length
  | .str s => .ok s.length
  | _ => .error .typeError

/-- Python body[0] as used on the example value in the array branch of
match_references: lists yield their first element, strings a one-character
string, dicts raise KeyError for the integer key, others TypeError. -/
def pyIndex0 : Json → Except GenError Json
  | .arr (x :: _) => .ok x
  | .arr [] => .error .indexError
  | .str s =>
      match s.data with
      | c :: _ => .ok (.str (String.mk [c]))
      | [] => .error .indexError
  | .obj _ => .error .keyError
  | _ => .error .typeError

/-- Python prop in body: key membership for dicts, substring test for
strings, element membership for lists, TypeError otherwise. -/
def pyContains (body : Json) (prop : String) : Except GenError Bool :=
  match body with
  | .obj kvs => .ok (jdictGet kvs prop).isSome
  | .str s => .ok (decide (List.IsInfix prop.data s.data))
  | .arr l => .ok (l.contains (.str prop))
  | _ => .error .typeError

/-- Python body[prop] with a string key: only dicts can succeed. -/
def pyGetItem (body : Json) (prop : String) : Except GenError Json :=
  match body with
  | .obj kvs =>
      match jdictGet kvs prop with
      | some v => .ok v
      | none => .error .keyError
  | _ => .error .typeError

theorem jdictGet_sizeOf {kvs : List (String × Json)} {key : String} {v : Json}
    (h : jdictGet kvs key = some v) : sizeOf v < 1 + sizeOf kvs := by
  induction kvs with
  | nil => simp [jdictGet] at h
  | cons kv rest ih =>
      obtain ⟨k, w⟩ := kv
      by_cases hk : k = key
      · simp [jdictGet, hk] at h
        subst h
        simp only [Prod.mk.sizeOf_spec, List.cons.sizeOf_spec]
        omega
      · simp [jdictGet, hk] at h
        have := ih h
        simp only [List.cons.sizeOf_spec]
        omega

mutual

/-- Generator.match_references(schema, body): leave reference nodes alone,
recurse into array items using the first element of a non-empty example,
and for object nodes with properties either return the node unchanged on an
empty example mapping, replace the node with a reference to the first
definition that validates against the example value, or recurse into the
properties present in the example value. -/
def match_references (cfg : Config) (schema body : Json) : Except GenError Json :=
  match schema with
  | .obj skvs =>
      if (jdictGet skvs "$ref").isSome then .ok schema
      else
        match hty : jdictGet skvs "type" with
        | none => .error .keyError
        | some t =>
            if t = .str "array" then
              match hit : jdictGet skvs "items" with
              | some items => do
                  let n ← pyLen body
                  if n > 0 then do
                    let b0 ← pyIndex0 body
                    let items2 ← match_references cfg items b0
                    .ok (.obj (jdictSet skvs "items" items2))
                  else .ok schema
              | none => .ok schema
            else if t = .str "object" then
              match hpr : jdictGet skvs "properties" with
              | none => .ok schema
              | some propsVal =>
                  if body = .obj [] then .ok schema
                  else
                    match cfg.definitions.find? (fun nd => cfg.validate nd.2 body) with
                    | some nd =>
                        .ok (.obj [("$ref", .str ("#/definitions/" ++ nd.1))])
                    | none =>
                        match hpv : propsVal with
                        | .obj props => do
                            let props2 ← match_references_props cfg props body
                            .ok (.obj (jdictSet skvs "properties" (.obj props2)))
                        | _ => .error .typeError
            else .ok schema
  | .str s => if decide (List.IsInfix "$ref".data s.data) then .ok schema
              else .error .typeError
  | .arr l => if l.contains (.str "$ref") then .ok schema else .error .typeError
  | _ => .error .typeError
termination_by sizeOf schema
decreasing_by
  · have h1 := jdictGet_sizeOf hit
    simp only [Json.obj.sizeOf_spec] at *
    omega
  · have h1 := jdictGet_sizeOf hpr
    simp only [Json.obj.sizeOf_spec] at *
    omega

/-- Property loop of match_references: recurse only into the properties
whose name occurs in the example value. -/
def match_references_props (cfg : Config) (plist : List (String × Json))
    (body : Json) : Except GenError (List (String × Json)) :=
  match plist with
  | [] => .ok []
  | (prop, psch) :: rest => do
      let c ← pyContains body prop
      if c then do
        let bv ← pyGetItem body prop
        let psch2 ← match_references cfg psch bv
        let rest2 ← match_references_props cfg rest body
        .ok ((prop, psch2) :: rest2)
      else do
        let rest2 ← match_references_props cfg rest body
        .ok ((prop, psch) :: rest2)
termination_by sizeOf plist
decreasing_by
  all_goals simp only [Prod.mk.sizeOf_spec, List.cons.sizeOf_spec]
  all_goals omega

end

/-!  Lemmas about component matching  -/

theorem component_matches_nil_nil : component_matches [] [] = true := rfl

theorem component_matches_nil_cons (b : Option Seg) (bs : Components) :
    component_matches [] (b :: bs) = false := rfl

theorem component_matches_cons_nil (a : Option Seg) (as : Components) :
    component_matches (a :: as) [] = false := rfl

theorem component_matches_cons (a b : Option Seg) (as bs : Components) :
    component_matches (a :: as) (b :: bs) =
      ((decide (a = b) || decide (b = none)) && component_matches as bs) := by
  by_cases h : as.length = bs.length
  · simp [component_matches, h]
  · have h2 : ¬ (a :: as).length = (b :: bs).length := by
      simp only [List.length_cons]
      omega
    simp [component_matches, h, h2]

theorem component_matches_iff (c1 c2 : Components) :
    component_matches c1 c2 = true ↔
      (c1.length = c2.length ∧ ∀ i, i < c1.length →
        (c1.getD i none = c2.getD i none ∨ c2.getD i none = none)) := by
  induction c1 generalizing c2 with
  | nil =>
      cases c2 with
      | nil => simp [component_matches_nil_nil]
      | cons b bs => simp [component_matches_nil_cons]
  | cons a as ih =>
      cases c2 with
      | nil => simp [component_matches_cons_nil]
      | cons b bs =>
          rw [component_matches_cons]
          constructor
          · intro h
            rw [Bool.and_eq_true, Bool.or_eq_true] at h
            obtain ⟨hab, hrest⟩ := h
            obtain ⟨hlen, hpos⟩ := (ih bs).mp hrest
            refine ⟨by simp [hlen], ?_⟩
            intro i hi
            cases i with
            | zero =>
                simp only [List.getD_cons_zero]
                simpa using hab
            | succ j =>
                simp only [List.getD_cons_succ]
                exact hpos j (by simpa using hi)
          · intro ⟨hlen, hpos⟩
            rw [Bool.and_eq_true, Bool.or_eq_true]
            constructor
            · have := hpos 0 (by simp)
              simpa using this
            · refine (ih bs).mpr ⟨by simpa using hlen, ?_⟩
              intro j hj
              have := hpos (j + 1) (by simpa using hj)
              simpa using this

theorem component_matches_refl (c : Components) : component_matches c c = true := by
  induction c with
  | nil => rfl
  | cons a as ih => rw [component_matches_cons]; simp [ih]

theorem component_matches_antisymm (c1 c2 : Components)
    (h12 : component_matches c1 c2 = true) (h21 : component_matches c2 c1 = true) :
    c1 = c2 := by
  induction c1 generalizing c2 with
  | nil =>
      cases c2 with
      | nil => rfl
      | cons b bs => simp [component_matches_nil_cons] at h12
  | cons a as ih =>
      cases c2 with
      | nil => simp [component_matches_cons_nil] at h12
      | cons b bs =>
          rw [component_matches_cons] at h12 h21
          rw [Bool.and_eq_true, Bool.or_eq_true] at h12 h21
          obtain ⟨hab, hrest12⟩ := h12
          obtain ⟨hba, hrest21⟩ := h21
          have hhead : a = b := by
            rcases hab with h | h
            · exact of_decide_eq_true h
            · rcases hba with h2 | h2
              · exact (of_decide_eq_true h2).symm
              · rw [of_decide_eq_true h, of_decide_eq_true h2]
          rw [hhead, ih bs hrest12 hrest21]

/-- C8: component matching requires equal lengths and positionwise agreement
or a parameter slot on the second side; it is reflexive but not symmetric in
general. -/
theorem claim_C8_matches_spec :
    (∀ c1 c2 : Components, component_matches c1 c2 = true ↔
      (c1.length = c2.length ∧ ∀ i, i < c1.length →
        (c1.getD i none = c2.getD i none ∨ c2.getD i none = none))) ∧
    (∀ c : Components, component_matches c c = true) ∧
    ¬ (∀ c1 c2 : Components,
        component_matches c1 c2 = true → component_matches c2 c1 = true) := by
  refine ⟨component_matches_iff, component_matches_refl, ?_⟩
  intro h
  have := h [some ['a']] [none] (by decide)
  simp [component_matches_cons] at this

/-- Witness for C8: the specification is applied at concrete sequences. -/
theorem claim_C8_matches_spec_witness :
    component_matches [some ['a'], none] [some ['a'], none] = true :=
  claim_C8_matches_spec.2.1 [some ['a'], none]

/-- C10: component matching is antisymmetric, so two distinct naive buckets
can never each be absorbable into the other. -/
theorem claim_C10_matches_antisymm :
    ∀ c1 c2 : Components, component_matches c1 c2 = true →
      component_matches c2 c1 = true → c1 = c2 :=
  component_matches_antisymm

/-- Witness for C10 at concrete component sequences. -/
theorem claim_C10_matches_antisymm_witness :
    component_matches [some ['a'], none] [some ['a'], none] = true ∧
    ([some ['a'], none] : Components) = [some ['a'], none] :=
  ⟨by decide, claim_C10_matches_antisymm [some ['a'], none] [some ['a'], none]
    (by decide) (by decide)⟩

/-!  Totality of schema inference (C6)  -/

@[simp] theorem except_ok_bind {α β : Type} {ε : Type} (a : α) (f : α → Except ε β) :
    (Except.ok a >>= f) = f a := rfl

@[simp] theorem except_error_bind {α β : Type} {ε : Type} (e : ε) (f : α → Except ε β) :
    ((Except.error e : Except ε α) >>= f) = Except.error e := rfl

mutual

/-- Specification-side predicate, following the wording of the totality
claim: an empty array is encountered along the traversal of a value, which
visits all object properties and the first element of each array. -/
def emptyArrayOnTraversal : Json → Bool
  | .null => false
  | .bool _ => false
  | .num _ => false
  | .str _ => false
  | .arr [] => true
  | .arr (x :: _) => emptyArrayOnTraversal x
  | .obj kvs => emptyArrayOnTraversalProps kvs

/-- Traversal predicate over the properties of an object. -/
def emptyArrayOnTraversalProps : List (String × Json) → Bool
  | [] => false
  | (_, v) :: rest => emptyArrayOnTraversal v || emptyArrayOnTraversalProps rest

end

mutual

theorem gs_total : ∀ (v : Json),
    (emptyArrayOnTraversal v = true ∧ generate_schema v = .error .emptyArray) ∨
    (emptyArrayOnTraversal v = false ∧ ∃ s, generate_schema v = .ok s)
  | .null => Or.inr ⟨rfl, _, rfl⟩
  | .bool b => Or.inr ⟨rfl, _, rfl⟩
  | .num n => Or.inr ⟨rfl, _, rfl⟩
  | .str s => Or.inr ⟨rfl, _, rfl⟩
  | .arr [] => Or.inl ⟨rfl, rfl⟩
  | .arr (x :: xs) => by
      rcases gs_total x with ⟨he, herr⟩ | ⟨he, s, hok⟩
      · exact Or.inl ⟨by simpa [emptyArrayOnTraversal] using he,
          by simp [generate_schema, herr]⟩
      · exact Or.inr ⟨by simpa [emptyArrayOnTraversal] using he,
          .obj [("type", .str "array"), ("items", s)],
          by simp [generate_schema, hok]⟩
  | .obj kvs => by
      rcases gs_total_props kvs with ⟨he, herr⟩ | ⟨he, ps, hok⟩
      · exact Or.inl ⟨by simpa [emptyArrayOnTraversal] using he,
          by simp [generate_schema, herr]⟩
      · exact Or.inr ⟨by simpa [emptyArrayOnTraversal] using he,
          .obj [("type", .str "object"), ("additionalProperties", .bool false),
                ("properties", .obj ps)],
          by simp [generate_schema, hok]⟩

theorem gs_total_props : ∀ (kvs : List (String × Json)),
    (emptyArrayOnTraversalProps kvs = true ∧
      generate_schema_props kvs = .error .emptyArray) ∨
    (emptyArrayOnTraversalProps kvs = false ∧
      ∃ ps, generate_schema_props kvs = .ok ps)
  | [] => Or.inr ⟨rfl, _, rfl⟩
  | (k, v) :: rest => by
      rcases gs_total v with ⟨he, herr⟩ | ⟨he, s, hok⟩
      · exact Or.inl ⟨by simp [emptyArrayOnTraversalProps, he],
          by simp [generate_schema_props, herr]⟩
      · rcases gs_total_props rest with ⟨hre, hrerr⟩ | ⟨hre, ps, hrok⟩
        · exact Or.inl ⟨by simp [emptyArrayOnTraversalProps, he, hre],
            by simp [generate_schema_props, hok, hrerr]⟩
        · exact Or.inr ⟨by simp [emptyArrayOnTraversalProps, he, hre],
            (k, s) :: ps, by simp [generate_schema_props, hok, hrok]⟩

end

/-- C6: schema inference is total on values whose traversal meets no empty
array, and fails with EmptyExampleArrayError exactly when the traversal
meets one; an empty array itself always fails. -/
theorem claim_C6_infer_totality :
    (∀ v : Json,
      (emptyArrayOnTraversal v = true ∧ generate_schema v = .error .emptyArray) ∨
      (emptyArrayOnTraversal v = false ∧ ∃ s, generate_schema v = .ok s)) ∧
    generate_schema (.arr []) = .error .emptyArray :=
  ⟨gs_total, rfl⟩

/-!  Lemmas about dict operations and update_dict (C3)  -/

instance {ε α : Type} [DecidableEq ε] [DecidableEq α] : DecidableEq (Except ε α) := fun a b =>
  match a, b with
  | .ok x, .ok y =>
      if h : x = y then .isTrue (by rw [h])
      else .isFalse (fun he => h (Except.ok.inj he))
  | .error x, .error y =>
      if h : x = y then .isTrue (by rw [h])
      else .isFalse (fun he => h (Except.error.inj he))
  | .ok _, .error _ => .isFalse (fun h => Except.noConfusion h)
  | .error _, .ok _ => .isFalse (fun h => Except.noConfusion h)

theorem except_bind_eq_ok {α β ε : Type} {x : Except ε α} {f : α → Except ε β} {r : β} :
    (x >>= f) = .ok r ↔ ∃ a, x = .ok a ∧ f a = .ok r := by
  cases x <;> simp

theorem jdictGet_set_eq (l : List (String × Json)) (key : String) (v : Json) :
    jdictGet (jdictSet l key v) key = some v := by
  induction l with
  | nil => simp [jdictSet, jdictGet]
  | cons kv rest ih =>
      obtain ⟨k, w⟩ := kv
      by_cases h : k = key
      · simp [jdictSet, jdictGet, h]
      · simp [jdictSet, jdictGet, h, ih]

theorem jdictGet_set_ne (l : List (String × Json)) {k key : String} (v : Json)
    (h : k ≠ key) : jdictGet (jdictSet l k v) key = jdictGet l key := by
  induction l with
  | nil => simp [jdictSet, jdictGet, h]
  | cons kv rest ih =>
      obtain ⟨k2, w⟩ := kv
      by_cases h2 : k2 = k
      · simp [jdictSet, jdictGet, h2, h]
      · by_cases h3 : k2 = key
        · simp [jdictSet, jdictGet, h2, h3, Ne.symm h]
        · simp [jdictSet, jdictGet, h2, h3, ih]

theorem jdictGet_split {us : List (String × Json)} {key : String} {v : Json}
    (h : jdictGet us key = some v) :
    ∃ A B, us = A ++ (key, v) :: B ∧ ∀ kv ∈ A, kv.1 ≠ key := by
  induction us with
  | nil => simp [jdictGet] at h
  | cons kv rest ih =>
      obtain ⟨k, w⟩ := kv
      by_cases hk : k = key
      · simp [jdictGet, hk] at h
        exact ⟨[], rest, by simp [hk, h], by simp⟩
      · simp [jdictGet, hk] at h
        obtain ⟨A, B, hAB, hA⟩ := ih h
        exact ⟨(k, w) :: A, B, by simp [hAB], by
          intro kv hkv
          rcases List.mem_cons.mp hkv with h1 | h1
          · simp [h1, hk]
          · exact hA kv h1⟩

theorem nodup_keys_right {us A B : List (String × Json)} {key : String} {v : Json}
    (hnd : (us.map Prod.fst).Nodup) (hsplit : us = A ++ (key, v) :: B) :
    ∀ kv ∈ B, kv.1 ≠ key := by
  subst hsplit
  rw [List.map_append, List.map_cons] at hnd
  have h2 : (key :: B.map Prod.fst).Nodup :=
    hnd.sublist (List.sublist_append_right _ _)
  have h3 : key ∉ B.map Prod.fst := (List.nodup_cons.mp h2).1
  intro kv hkv he
  exact h3 (he ▸ List.mem_map_of_mem Prod.fst hkv)

/-- Processing of one item of u inside update_dict: recursion for mapping
values, plain assignment otherwise. -/
def update_dict_step (d : Json) (k : String) (v : Json) : Except GenError Json :=
  match v with
  | .obj vo =>
      match d with
      | .obj dkvs => do
          let merged ← update_dict ((jdictGet dkvs k).getD (.obj [])) (.obj vo)
          .ok (.obj (jdictSet dkvs k merged))
      | _ => .error .typeError
  | _ =>
      match d with
      | .obj dkvs => .ok (.obj (jdictSet dkvs k v))
      | _ => .error .typeError

theorem update_dict_go_cons (d : Json) (k : String) (v : Json)
    (rest : List (String × Json)) :
    update_dict_go d ((k, v) :: rest) =
      update_dict_step d k v >>= fun d2 => update_dict_go d2 rest := by
  cases v with
  | obj vo =>
      cases d with
      | obj dkvs =>
          simp only [update_dict_go, update_dict_step, update_dict]
          cases hm : update_dict_go ((jdictGet dkvs k).getD (.obj [])) vo <;> simp [hm]
      | null => rfl
      | bool b => rfl
      | num n => rfl
      | str s => rfl
      | arr l => rfl
  | null => cases d <;> rfl
  | bool b => cases d <;> rfl
  | num n => cases d <;> rfl
  | str s => cases d <;> rfl
  | arr l => cases d <;> rfl

theorem update_dict_go_append (xs ys : List (String × Json)) :
    ∀ d, update_dict_go d (xs ++ ys) =
      update_dict_go d xs >>= fun d2 => update_dict_go d2 ys := by
  induction xs with
  | nil => intro d; simp [update_dict_go]
  | cons kv rest ih =>
      intro d
      obtain ⟨k, v⟩ := kv
      rw [List.cons_append, update_dict_go_cons, update_dict_go_cons, bind_assoc]
      cases update_dict_step d k v with
      | ok d2 => simp [ih]
      | error e => simp

theorem update_dict_step_preserve {d d2 : Json} {k key : String} {v : Json}
    (hok : update_dict_step d k v = .ok d2) (hne : k ≠ key) :
    jget d2 key = jget d key := by
  cases v with
  | obj vo =>
      cases d with
      | obj dkvs =>
          simp only [update_dict_step] at hok
          rw [except_bind_eq_ok] at hok
          obtain ⟨m, hm, hset⟩ := hok
          cases hset
          simp [jget, jdictGet_set_ne _ _ hne]
      | null => simp [update_dict_step] at hok
      | bool b => simp [update_dict_step] at hok
      | num n => simp [update_dict_step] at hok
      | str s => simp [update_dict_step] at hok
      | arr l => simp [update_dict_step] at hok
  | null =>
      cases d <;> simp [update_dict_step] at hok
      cases hok; simp [jget, jdictGet_set_ne _ _ hne]
  | bool b =>
      cases d <;> simp [update_dict_step] at hok
      cases hok; simp [jget, jdictGet_set_ne _ _ hne]
  | num n =>
      cases d <;> simp [update_dict_step] at hok
      cases hok; simp [jget, jdictGet_set_ne _ _ hne]
  | str s =>
      cases d <;> simp [update_dict_step] at hok
      cases hok; simp [jget, jdictGet_set_ne _ _ hne]
  | arr l =>
      cases d <;> simp [update_dict_step] at hok
      cases hok; simp [jget, jdictGet_set_ne _ _ hne]

theorem update_dict_go_preserve {l : List (String × Json)} {key : String} :
    ∀ {d r : Json}, update_dict_go d l = .ok r → (∀ kv ∈ l, kv.1 ≠ key) →
    jget r key = jget d key := by
  induction l with
  | nil => intro d r hok hkeys; cases hok; rfl
  | cons kv rest ih =>
      intro d r hok hkeys
      obtain ⟨k, v⟩ := kv
      rw [update_dict_go_cons, except_bind_eq_ok] at hok
      obtain ⟨d2, hstep, hrest⟩ := hok
      have h1 := update_dict_step_preserve hstep (hkeys (k, v) (by simp))
      have h2 := ih hrest (fun kv hkv => hkeys kv (List.mem_cons_of_mem _ hkv))
      rw [h2, h1]

theorem update_dict_step_of_leaf {v : Json} (hv : v.isObj = false) (d : Json)
    (k : String) :
    update_dict_step d k v = (match d with
      | .obj dkvs => .ok (.obj (jdictSet dkvs k v))
      | _ => .error .typeError) := by
  cases v <;> first | rfl | simp [Json.isObj] at hv

theorem update_dict_step_leaf {d d2 : Json} {k : String} {v : Json}
    (hok : update_dict_step d k v = .ok d2) (hv : v.isObj = false) :
    jget d2 k = some v := by
  rw [update_dict_step_of_leaf hv] at hok
  cases d with
  | obj dkvs => cases hok; simp [jget, jdictGet_set_eq]
  | null => exact absurd hok (by simp)
  | bool b => exact absurd hok (by simp)
  | num n => exact absurd hok (by simp)
  | str s => exact absurd hok (by simp)
  | arr l => exact absurd hok (by simp)

theorem update_dict_step_obj {d1 d2 : Json} {k : String} {vo : List (String × Json)}
    (hok : update_dict_step d1 k (.obj vo) = .ok d2) :
    ∃ d1k m, d1 = .obj d1k ∧
      update_dict ((jdictGet d1k k).getD (.obj [])) (.obj vo) = .ok m ∧
      d2 = .obj (jdictSet d1k k m) := by
  cases d1 with
  | obj d1k =>
      simp only [update_dict_step] at hok
      rw [except_bind_eq_ok] at hok
      obtain ⟨m, hm, hset⟩ := hok
      cases hset
      exact ⟨d1k, m, rfl, hm, rfl⟩
  | null => simp [update_dict_step] at hok
  | bool b => simp [update_dict_step] at hok
  | num n => simp [update_dict_step] at hok
  | str s => simp [update_dict_step] at hok
  | arr l => simp [update_dict_step] at hok

theorem update_dict_leaf_override {d r : Json} {us : List (String × Json)}
    {key : String} {v : Json}
    (hok : update_dict d (.obj us) = .ok r)
    (hnd : (us.map Prod.fst).Nodup)
    (hget : jdictGet us key = some v) (hv : v.isObj = false) :
    jget r key = some v := by
  obtain ⟨A, B, hsplit, hA⟩ := jdictGet_split hget
  have hB := nodup_keys_right hnd hsplit
  have hok2 : update_dict_go d us = .ok r := hok
  rw [hsplit, update_dict_go_append, except_bind_eq_ok] at hok2
  obtain ⟨d1, hgoA, hrest⟩ := hok2
  rw [update_dict_go_cons, except_bind_eq_ok] at hrest
  obtain ⟨d2, hstep, hgoB⟩ := hrest
  have h1 := update_dict_step_leaf hstep hv
  have h2 := update_dict_go_preserve hgoB (fun kv hkv => hB kv hkv)
  rw [h2, h1]

theorem update_dict_recurse {d r : Json} {us uo dobj : List (String × Json)}
    {key : String}
    (hok : update_dict d (.obj us) = .ok r)
    (hnd : (us.map Prod.fst).Nodup)
    (hget : jdictGet us key = some (.obj uo))
    (hdget : jget d key = some (.obj dobj)) :
    ∃ m, update_dict (.obj dobj) (.obj uo) = .ok m ∧ jget r key = some m := by
  obtain ⟨A, B, hsplit, hA⟩ := jdictGet_split hget
  have hB := nodup_keys_right hnd hsplit
  have hok2 : update_dict_go d us = .ok r := hok
  rw [hsplit, update_dict_go_append, except_bind_eq_ok] at hok2
  obtain ⟨d1, hgoA, hrest⟩ := hok2
  rw [update_dict_go_cons, except_bind_eq_ok] at hrest
  obtain ⟨d2, hstep, hgoB⟩ := hrest
  obtain ⟨d1k, m, hd1, hm, hd2⟩ := update_dict_step_obj hstep
  have hpresA : jget d1 key = jget d key := update_dict_go_preserve hgoA hA
  have hd1get : jdictGet d1k key = some (.obj dobj) := by
    have := hpresA.trans hdget
    rw [hd1] at this
    exact this
  rw [hd1get] at hm
  refine ⟨m, hm, ?_⟩
  have hpresB : jget r key = jget d2 key := update_dict_go_preserve hgoB hB
  rw [hpresB, hd2]
  simp [jget, jdictGet_set_eq]

/-- C3 (amended): update_dict(a, b) is a key-by-key deep merge where the
second argument's non-mapping leaves win and overlapping mapping values
recurse; but merge_response_schema is called with the newly generated schema
first and the previously stored schema second, so on a disagreeing leaf the
earlier-merged example's value is what survives. -/
theorem claim_C3_amended_merge_semantics :
    (∀ (d r : Json) (us : List (String × Json)) (key : String) (v : Json),
      update_dict d (.obj us) = .ok r → (us.map Prod.fst).Nodup →
      jdictGet us key = some v → v.isObj = false → jget r key = some v) ∧
    (∀ (d r : Json) (us uo dobj : List (String × Json)) (key : String),
      update_dict d (.obj us) = .ok r → (us.map Prod.fst).Nodup →
      jdictGet us key = some (.obj uo) → jget d key = some (.obj dobj) →
      ∃ m, update_dict (.obj dobj) (.obj uo) = .ok m ∧ jget r key = some m) ∧
    (∀ (s1 r : Json) (us : List (String × Json)) (key : String) (v : Json),
      merge_response_schema s1 (.obj us) = .ok r → (us.map Prod.fst).Nodup →
      jdictGet us key = some v → v.isObj = false → jget r key = some v) :=
  ⟨fun d r us key v hok hnd hget hv => update_dict_leaf_override hok hnd hget hv,
   fun d r us uo dobj key hok hnd hget hdget =>
     update_dict_recurse hok hnd hget hdget,
   fun s1 r us key v hok hnd hget hv => update_dict_leaf_override hok hnd hget hv⟩

/-- Witness for the amended C3 at concrete schemas: merging the old schema
of type string into the new schema of type number keeps the string type. -/
theorem claim_C3_amended_merge_semantics_witness :
    jget (.obj [("type", Json.str "string")]) "type" = some (Json.str "string") :=
  claim_C3_amended_merge_semantics.2.2 (.obj [("type", Json.str "number")])
    (.obj [("type", Json.str "string")]) [("type", Json.str "string")] "type"
    (Json.str "string") rfl (by simp) rfl rfl

/-!  Query parameter requiredness (C2)  -/

/-- First query parameter with a given name in a parameter list. -/
def findQuery (l : List Json) (n : String) : Option Json :=
  l.find? (fun p => isQuery p && decide (pname p = n))

theorem pname_set_required_false (p : Json) :
    pname (set_required_false p) = pname p := by
  cases p with
  | obj kvs =>
      simp [pname, set_required_false, jget, jdictGet_set_ne _ _ (by decide : "required" ≠ "name")]
  | null => rfl
  | bool b => rfl
  | num n => rfl
  | str s => rfl
  | arr l => rfl

theorem isQuery_set_required_false (p : Json) :
    isQuery (set_required_false p) = isQuery p := by
  cases p with
  | obj kvs =>
      simp [isQuery, set_required_false, jget, jdictGet_set_ne _ _ (by decide : "required" ≠ "in")]
  | null => rfl
  | bool b => rfl
  | num n => rfl
  | str s => rfl
  | arr l => rfl

theorem eraseP_any_ne {qp2 : List (String × Json)} {n m : String}
    (h : qp2.any (fun kv => decide (kv.1 = n)) = true) (hne : m ≠ n) :
    (qp2.eraseP (fun kv => decide (kv.1 = m))).any (fun kv => decide (kv.1 = n)) = true := by
  induction qp2 with
  | nil => simp at h
  | cons kv rest ih =>
      by_cases hm : kv.1 = m
      · rw [List.eraseP_cons_of_pos (by simp [hm])]
        rcases List.any_eq_true.mp h with ⟨x, hx, hpx⟩
        rcases List.mem_cons.mp hx with h1 | h1
        · subst h1
          exact absurd (of_decide_eq_true hpx) (by rw [hm]; exact hne)
        · exact List.any_eq_true.mpr ⟨x, h1, hpx⟩
      · rw [List.eraseP_cons_of_neg (by simp [hm])]
        by_cases hn : kv.1 = n
        · simp [hn]
        · simp only [List.any_cons]
          have h2 : rest.any (fun kv => decide (kv.1 = n)) = true := by
            rcases List.any_eq_true.mp h with ⟨x, hx, hpx⟩
            rcases List.mem_cons.mp hx with h1 | h1
            · exact absurd (of_decide_eq_true hpx) (h1 ▸ hn)
            · exact List.any_eq_true.mpr ⟨x, h1, hpx⟩
          simp [h2, ih h2]

theorem eraseP_any_mono {qp2 : List (String × Json)} {n m : String}
    (h : qp2.any (fun kv => decide (kv.1 = n)) = false) :
    (qp2.eraseP (fun kv => decide (kv.1 = m))).any (fun kv => decide (kv.1 = n)) = false := by
  rw [List.any_eq_false] at h ⊢
  intro x hx
  exact h x ((qp2.eraseP_sublist).mem hx)

theorem merge_loop_found {n : String} :
    ∀ (params1 : List Json) (qp2 : List (String × Json)) (p : Json),
    findQuery params1 n = some p →
    qp2.any (fun kv => decide (kv.1 = n)) = true →
    findQuery (merge_loop params1 qp2).1 n = some p := by
  intro params1
  induction params1 with
  | nil => intro qp2 p h hq; simp [findQuery] at h
  | cons p0 rest ih =>
      intro qp2 p h hq
      by_cases hq0 : isQuery p0 = true
      · by_cases hn0 : pname p0 = n
        · have hpred : (isQuery p0 && decide (pname p0 = n)) = true := by
            simp [hq0, hn0]
          have h2 : p = p0 := by
            rw [findQuery, List.find?_cons_of_pos
              (p := fun q => isQuery q && decide (pname q = n)) _ hpred] at h
            exact (Option.some.inj h).symm
          subst h2
          have hany : qp2.any (fun kv => decide (kv.1 = pname p)) = true := by
            rw [hn0]; exact hq
          rw [merge_loop]
          simp only [hq0, if_true, hany]
          rw [findQuery, List.find?_cons_of_pos
            (p := fun q => isQuery q && decide (pname q = n)) _ hpred]
        · have hpred : ¬ ((fun q => isQuery q && decide (pname q = n)) p0 = true) := by
            simp [hn0]
          have h2 : findQuery rest n = some p := by
            rw [findQuery, List.find?_cons_of_neg
              (p := fun q => isQuery q && decide (pname q = n)) _ hpred] at h
            exact h
          rw [merge_loop]
          simp only [hq0, if_true]
          by_cases hin : qp2.any (fun kv => decide (kv.1 = pname p0)) = true
          · simp only [hin, if_true]
            rw [findQuery, List.find?_cons_of_neg
              (p := fun q => isQuery q && decide (pname q = n)) _ hpred]
            exact ih _ p h2 (eraseP_any_ne hq hn0)
          · simp only [Bool.not_eq_true] at hin
            simp only [hin, Bool.false_eq_true, if_false]
            have hpredf : ¬ ((fun q => isQuery q && decide (pname q = n))
                (set_required_false p0) = true) := by
              simp only [isQuery_set_required_false, pname_set_required_false]
              simp [hn0]
            rw [findQuery, List.find?_cons_of_neg
              (p := fun q => isQuery q && decide (pname q = n)) _ hpredf]
            exact ih _ p h2 hq
      · simp only [Bool.not_eq_true] at hq0
        have hpred : ¬ ((fun q => isQuery q && decide (pname q = n)) p0 = true) := by
          simp [hq0]
        have h2 : findQuery rest n = some p := by
          rw [findQuery, List.find?_cons_of_neg
            (p := fun q => isQuery q && decide (pname q = n)) _ hpred] at h
          exact h
        rw [merge_loop]
        simp only [hq0, Bool.false_eq_true, if_false]
        rw [findQuery, List.find?_cons_of_neg
          (p := fun q => isQuery q && decide (pname q = n)) _ hpred]
        exact ih _ p h2 hq

theorem merge_loop_absent {n : String} :
    ∀ (params1 : List Json) (qp2 : List (String × Json)) (p : Json),
    findQuery params1 n = some p →
    qp2.any (fun kv => decide (kv.1 = n)) = false →
    findQuery (merge_loop params1 qp2).1 n = some (set_required_false p) := by
  intro params1
  induction params1 with
  | nil => intro qp2 p h hq; simp [findQuery] at h
  | cons p0 rest ih =>
      intro qp2 p h hq
      by_cases hq0 : isQuery p0 = true
      · by_cases hn0 : pname p0 = n
        · have hpred : (isQuery p0 && decide (pname p0 = n)) = true := by
            simp [hq0, hn0]
          have h2 : p = p0 := by
            rw [findQuery, List.find?_cons_of_pos
              (p := fun q => isQuery q && decide (pname q = n)) _ hpred] at h
            exact (Option.some.inj h).symm
          subst h2
          have hany : qp2.any (fun kv => decide (kv.1 = pname p)) = false := by
            rw [hn0]; exact hq
          rw [merge_loop]
          simp only [hq0, if_true, hany, Bool.false_eq_true, if_false]
          have hpredt : ((fun q => isQuery q && decide (pname q = n))
              (set_required_false p) = true) := by
            simp only [isQuery_set_required_false, pname_set_required_false]
            exact hpred
          rw [findQuery, List.find?_cons_of_pos
            (p := fun q => isQuery q && decide (pname q = n)) _ hpredt]
        · have hpred : ¬ ((fun q => isQuery q && decide (pname q = n)) p0 = true) := by
            simp [hn0]
          have h2 : findQuery rest n = some p := by
            rw [findQuery, List.find?_cons_of_neg
              (p := fun q => isQuery q && decide (pname q = n)) _ hpred] at h
            exact h
          rw [merge_loop]
          simp only [hq0, if_true]
          by_cases hin : qp2.any (fun kv => decide (kv.1 = pname p0)) = true
          · simp only [hin, if_true]
            rw [findQuery, List.find?_cons_of_neg
              (p := fun q => isQuery q && decide (pname q = n)) _ hpred]
            exact ih _ p h2 (eraseP_any_mono hq)
          · simp only [Bool.not_eq_true] at hin
            simp only [hin, Bool.false_eq_true, if_false]
            have hpredf : ¬ ((fun q => isQuery q && decide (pname q = n))
                (set_required_false p0) = true) := by
              simp only [isQuery_set_required_false, pname_set_required_false]
              simp [hn0]
            rw [findQuery, List.find?_cons_of_neg
              (p := fun q => isQuery q && decide (pname q = n)) _ hpredf]
            exact ih _ p h2 hq
      · simp only [Bool.not_eq_true] at hq0
        have hpred : ¬ ((fun q => isQuery q && decide (pname q = n)) p0 = true) := by
          simp [hq0]
        have h2 : findQuery rest n = some p := by
          rw [findQuery, List.find?_cons_of_neg
            (p := fun q => isQuery q && decide (pname q = n)) _ hpred] at h
          exact h
        rw [merge_loop]
        simp only [hq0, Bool.false_eq_true, if_false]
        rw [findQuery, List.find?_cons_of_neg
          (p := fun q => isQuery q && decide (pname q = n)) _ hpred]
        exact ih _ p h2 hq

theorem jdictSet_any_key (acc : List (String × Json)) (k : String) (v : Json)
    (n : String) :
    (jdictSet acc k v).any (fun kv => decide (kv.1 = n)) =
      (acc.any (fun kv => decide (kv.1 = n)) || decide (k = n)) := by
  induction acc with
  | nil => simp [jdictSet]
  | cons kv0 rest ih =>
      obtain ⟨k2, w⟩ := kv0
      by_cases h : k2 = k
      · subst h
        simp only [jdictSet, if_pos rfl, List.any_cons]
        cases hd : decide (k2 = n) <;>
          cases hA : rest.any (fun kv => decide (kv.1 = n)) <;> simp [hd, hA]
      · simp only [jdictSet, if_neg h, List.any_cons, ih]
        rw [Bool.or_assoc]

theorem qp2_fold_any (n : String) :
    ∀ (params2 : List Json) (acc : List (String × Json)),
    ((params2.foldl (fun acc p => if isQuery p then jdictSet acc (pname p) p else acc)
        acc).any (fun kv => decide (kv.1 = n))) =
      (acc.any (fun kv => decide (kv.1 = n)) ||
        params2.any (fun p => isQuery p && decide (pname p = n))) := by
  intro params2
  induction params2 with
  | nil => intro acc; simp
  | cons p0 rest ih =>
      intro acc
      simp only [List.foldl_cons, List.any_cons]
      by_cases hq : isQuery p0 = true
      · rw [if_pos hq, ih, jdictSet_any_key]
        simp only [hq, Bool.true_and]
        cases acc.any (fun kv => decide (kv.1 = n)) <;>
          cases decide (pname p0 = n) <;>
          cases rest.any (fun p => isQuery p && decide (pname p = n)) <;> simp
      · simp only [Bool.not_eq_true] at hq
        rw [if_neg (by simp [hq]), ih]
        simp [hq]

theorem merge_query_params_found {params1 params2 : List Json} {n : String} {p : Json}
    (h : findQuery params1 n = some p)
    (hex : ∃ q ∈ params2, isQuery q = true ∧ pname q = n) :
    findQuery (merge_query_params params1 params2) n = some p := by
  have hany : (params2.foldl
      (fun acc p => if isQuery p then jdictSet acc (pname p) p else acc) []).any
      (fun kv => decide (kv.1 = n)) = true := by
    rw [qp2_fold_any]
    obtain ⟨q, hq, hqq, hqn⟩ := hex
    simp only [List.any_nil, Bool.false_or]
    exact List.any_eq_true.mpr ⟨q, hq, by simp [hqq, hqn]⟩
  unfold merge_query_params
  rw [findQuery, List.find?_append]
  have h2 := merge_loop_found params1 _ p h hany
  rw [findQuery] at h2
  rw [h2]
  rfl

theorem merge_query_params_absent {params1 params2 : List Json} {n : String} {p : Json}
    (h : findQuery params1 n = some p)
    (hnone : ∀ q ∈ params2, isQuery q = true → pname q ≠ n) :
    findQuery (merge_query_params params1 params2) n = some (set_required_false p) := by
  have hany : (params2.foldl
      (fun acc p => if isQuery p then jdictSet acc (pname p) p else acc) []).any
      (fun kv => decide (kv.1 = n)) = false := by
    rw [qp2_fold_any]
    simp only [List.any_nil, Bool.false_or]
    rw [List.any_eq_false]
    intro q hq
    by_cases hqq : isQuery q = true
    · simp [hqq, hnone q hq hqq]
    · simp only [Bool.not_eq_true] at hqq
      simp [hqq]
  unfold merge_query_params
  rw [findQuery, List.find?_append]
  have h2 := merge_loop_absent params1 _ p h hany
  rw [findQuery] at h2
  rw [h2]
  rfl

theorem foldl_jdictSet_preserve (key : String) :
    ∀ (uk : List (String × Json)) (dk : List (String × Json)),
    (∀ kv ∈ uk, kv.1 ≠ key) →
    jdictGet (uk.foldl (fun acc kv => jdictSet acc kv.1 kv.2) dk) key = jdictGet dk key := by
  intro uk
  induction uk with
  | nil => intro dk h; rfl
  | cons kv rest ih =>
      intro dk h
      simp only [List.foldl_cons]
      rw [ih _ (fun x hx => h x (List.mem_cons_of_mem _ hx)),
          jdictGet_set_ne _ _ (h kv (by simp))]

theorem generate_type_params_keys {v st : Json}
    (h : generate_type_params v = .ok st) :
    ∃ stk, st = .obj stk ∧
      ∀ kv ∈ stk, kv.1 = "type" ∨ kv.1 = "properties" ∨ kv.1 = "items" := by
  cases v with
  | null => exact ⟨_, (Except.ok.inj h).symm, by simp⟩
  | bool b => exact ⟨_, (Except.ok.inj h).symm, by simp⟩
  | num n => exact ⟨_, (Except.ok.inj h).symm, by simp⟩
  | str s => exact ⟨_, (Except.ok.inj h).symm, by simp⟩
  | arr l =>
      cases l with
      | nil => simp [generate_type_params] at h
      | cons x xs =>
          simp only [generate_type_params] at h
          rw [except_bind_eq_ok] at h
          obtain ⟨items, hit, h⟩ := h
          refine ⟨_, (Except.ok.inj h).symm, ?_⟩
          intro kv hkv
          rcases List.mem_cons.mp hkv with h1 | h1
          · simp [h1]
          · rcases List.mem_cons.mp h1 with h2 | h2
            · simp [h2]
            · simp at h2
  | obj kvs =>
      simp only [generate_type_params] at h
      rw [except_bind_eq_ok] at h
      obtain ⟨props, hpr, h⟩ := h
      refine ⟨_, (Except.ok.inj h).symm, ?_⟩
      intro kv hkv
      rcases List.mem_cons.mp hkv with h1 | h1
      · simp [h1]
      · rcases List.mem_cons.mp h1 with h2 | h2
        · simp [h2]
        · simp at h2

theorem query_param_required {k : String} {v st : Json}
    (h : generate_type_params v = .ok st) :
    jget (pyDictUpdate
      (.obj [("name", .str k), ("in", .str "query"), ("required", .bool true)]) st)
      "required" = some (.bool true) := by
  obtain ⟨stk, hst, hkeys⟩ := generate_type_params_keys h
  subst hst
  simp only [pyDictUpdate, jget]
  rw [foldl_jdictSet_preserve _ stk _ ?keys]
  · rfl
  case keys =>
      intro kv hkv
      rcases hkeys kv hkv with h1 | h1 | h1 <;> simp [h1]

theorem mkPathParams_not_query : ∀ (i : Nat) (c : Components) (p : Json),
    p ∈ mkPathParams i c → isQuery p = false := by
  intro i c
  induction c generalizing i with
  | nil => intro p h; simp [mkPathParams] at h
  | cons e rest ih =>
      intro p h
      cases e with
      | none =>
          rcases List.mem_cons.mp h with h1 | h1
          · subst h1; rfl
          · exact ih _ p h1
      | some s => exact ih _ p h

theorem queryfold_required (cfg : Config) :
    ∀ (qd : List (String × Json)) (acc qps : List Json),
    (qd.foldlM (fun acc kv => do
        let st ← generate_type_params kv.2
        let qp := pyDictUpdate
          (.obj [("name", .str kv.1), ("in", .str "query"), ("required", .bool true)]) st
        .ok (if cfg.query_key_blacklist.contains kv.1 then acc else acc ++ [qp]))
      acc) = .ok qps →
    (∀ p ∈ acc, isQuery p = true → jget p "required" = some (.bool true)) →
    ∀ p ∈ qps, isQuery p = true → jget p "required" = some (.bool true) := by
  intro qd
  induction qd with
  | nil =>
      intro acc qps h hacc
      cases h
      exact hacc
  | cons kv rest ih =>
      intro acc qps h hacc
      simp only [List.foldlM_cons] at h
      rw [except_bind_eq_ok] at h
      obtain ⟨a2, ha2, hrest⟩ := h
      rw [except_bind_eq_ok] at ha2
      obtain ⟨st, hst, hqp⟩ := ha2
      refine ih _ qps hrest ?_
      intro p hp hq
      by_cases hbl : cfg.query_key_blacklist.contains kv.1 = true
      · rw [if_pos hbl] at hqp
        cases hqp
        exact hacc p hp hq
      · rw [if_neg hbl] at hqp
        cases hqp
        rcases List.mem_append.mp hp with h1 | h1
        · exact hacc p h1 hq
        · rcases List.mem_singleton.mp h1 with rfl
          exact query_param_required hst

theorem gen_request_params_nil_required {cfg : Config} {path : List Char}
    {req : Request} {r : List Json}
    (hok : generate_request_params cfg path req [] = .ok r) :
    ∀ p ∈ r, isQuery p = true → jget p "required" = some (.bool true) := by
  unfold generate_request_params at hok
  rw [except_bind_eq_ok] at hok
  obtain ⟨qps, hqps, hok⟩ := hok
  rw [except_bind_eq_ok] at hok
  obtain ⟨comps, hcomps, hok⟩ := hok
  have hqmem : ∀ p ∈ qps, isQuery p = true → jget p "required" = some (.bool true) :=
    queryfold_required cfg _ [] qps hqps (by simp)
  have hpp : ∀ p ∈ mkPathParams 0 comps, isQuery p = true →
      jget p "required" = some (.bool true) := by
    intro p hp hq
    rw [mkPathParams_not_query 0 comps p hp] at hq
    simp at hq
  intro p hp hq
  rcases hd : req.data with _ | d
  · rw [hd] at hok
    dsimp only at hok
    simp only [except_ok_bind] at hok
    have hr : qps ++ mkPathParams 0 comps = r := by simpa using hok
    rw [← hr] at hp
    rcases List.mem_append.mp hp with h1 | h1
    · exact hqmem p h1 hq
    · exact hpp p h1 hq
  · rw [hd] at hok
    dsimp only at hok
    by_cases ht : pyTruthy d = true
    · rw [if_pos ht] at hok
      rw [except_bind_eq_ok] at hok
      obtain ⟨s, hs, hok⟩ := hok
      simp only [except_ok_bind] at hok
      have hr : qps ++ mkPathParams 0 comps ++
          [Json.obj [("name", .str "body_data"), ("in", .str "body"), ("schema", s)]] =
          r := by simpa using hok
      rw [← hr] at hp
      rcases List.mem_append.mp hp with h1 | h1
      · rcases List.mem_append.mp h1 with h2 | h2
        · exact hqmem p h2 hq
        · exact hpp p h2 hq
      · rcases List.mem_singleton.mp h1 with rfl
        simp [isQuery, jget, jdictGet] at hq
    · rw [if_neg ht] at hok
      simp only [except_ok_bind] at hok
      have hr : qps ++ mkPathParams 0 comps = r := by simpa using hok
      rw [← hr] at hp
      rcases List.mem_append.mp hp with h1 | h1
      · exact hqmem p h1 hq
      · exact hpp p h1 hq

/-- C2 (amended): when the previously accumulated parameter list is empty,
every generated query parameter is required; during a merge step a query
parameter of the new example that also occurs among the accumulated query
parameters is kept with its fresh required flag (required = true), and one
that does not occur there is marked not required.  In particular a query
parameter ends up required when it occurs in the last example and either
occurred before or nothing at all had been accumulated, which is not the
claimed appears-in-every-example condition. -/
theorem claim_C2_amended_required_semantics :
    (∀ (cfg : Config) (path : List Char) (req : Request) (r : List Json),
      generate_request_params cfg path req [] = .ok r →
      ∀ p ∈ r, isQuery p = true → jget p "required" = some (.bool true)) ∧
    (∀ (params1 params2 : List Json) (n : String) (p : Json),
      findQuery params1 n = some p →
      (∃ q ∈ params2, isQuery q = true ∧ pname q = n) →
      findQuery (merge_query_params params1 params2) n = some p) ∧
    (∀ (params1 params2 : List Json) (n : String) (p : Json),
      findQuery params1 n = some p →
      (∀ q ∈ params2, isQuery q = true → pname q ≠ n) →
      findQuery (merge_query_params params1 params2) n = some (set_required_false p)) :=
  ⟨fun cfg path req r h => gen_request_params_nil_required h,
   fun _ _ _ _ h hex => merge_query_params_found h hex,
   fun _ _ _ _ h hnone => merge_query_params_absent h hnone⟩

/-- Witness for the amended C2: a new query parameter p (required) matched
against an accumulated optional parameter of the same name survives with
required = true. -/
theorem claim_C2_amended_required_semantics_witness :
    findQuery
      (merge_query_params
        [.obj [("name", .str "p"), ("in", .str "query"), ("required", .bool true)]]
        [.obj [("name", .str "p"), ("in", .str "query"), ("required", .bool false)]])
      "p" =
      some (.obj [("name", .str "p"), ("in", .str "query"), ("required", .bool true)]) :=
  claim_C2_amended_required_semantics.2.1
    [.obj [("name", .str "p"), ("in", .str "query"), ("required", .bool true)]]
    [.obj [("name", .str "p"), ("in", .str "query"), ("required", .bool false)]]
    "p" (.obj [("name", .str "p"), ("in", .str "query"), ("required", .bool true)])
    (by decide)
    ⟨.obj [("name", .str "p"), ("in", .str "query"), ("required", .bool false)],
      List.mem_singleton.mpr rfl, by decide, by decide⟩

/-- C2 counterexample: the first merged example has no query parameters at
all, yet the parameter p contributed only by the second example ends up with
required = true, contradicting the appears-in-every-example rule. -/
theorem claim_C2_counterexample :
    generate_path ({} : Config) "/x".data
      [{ request := { method := "GET" }, status_code := "200", respData := .num 1 },
       { request := { method := "GET", query := [("p", "1")] }, status_code := "200",
         respData := .num 1 }] =
      .ok [("get",
        { responses := [("200", .obj [("schema", .obj [("type", .str "number")]),
            ("description", .str "TODO")])],
          description := "TODO", summary := "",
          parameters := some [.obj [("name", .str "p"), ("in", .str "query"),
            ("required", .bool true), ("type", .str "string")]] })] ∧
    ({ method := "GET" } : Request).query = [] :=
  ⟨by decide, rfl⟩

/-!  Well-shaped generated schemas (C4)  -/

mutual

/-- Shape invariant of the schema dicts produced by generate_schema and
preserved by update_dict: an object whose properties entry is a map of
well-shaped schemas, whose items entry is a well-shaped schema, and whose
other entries are non-mappings. -/
def schemaShape : Json → Bool
  | .obj kvs => schemaShapeEntries kvs
  | _ => false

/-- Entry list form of the schema shape invariant. -/
def schemaShapeEntries : List (String × Json) → Bool
  | [] => true
  | (k, v) :: rest =>
      (if k = "properties" then propsValShape v
       else if k = "items" then schemaShape v
       else !v.isObj) && schemaShapeEntries rest

/-- Shape of the value stored under the properties key. -/
def propsValShape : Json → Bool
  | .obj ps => propsShapeEntries ps
  | _ => false

/-- Shape invariant of a properties map: every value is a well-shaped schema. -/
def propsShapeEntries : List (String × Json) → Bool
  | [] => true
  | (_, v) :: rest => schemaShape v && propsShapeEntries rest

end

theorem propsValShape_obj {v : Json} (h : propsValShape v = true) :
    ∃ pw, v = .obj pw ∧ propsShapeEntries pw = true := by
  cases v with
  | obj ps => exact ⟨ps, rfl, h⟩
  | null => simp [propsValShape] at h
  | bool b => simp [propsValShape] at h
  | num n => simp [propsValShape] at h
  | str s => simp [propsValShape] at h
  | arr l => simp [propsValShape] at h

mutual

theorem generate_schema_shape : ∀ {v s : Json},
    generate_schema v = .ok s → schemaShape s = true
  | .null, s, h => by
      cases h
      decide
  | .bool b, s, h => by
      cases h
      decide
  | .num n, s, h => by
      cases h
      decide
  | .str t, s, h => by
      cases h
      decide
  | .arr [], s, h => by
      simp [generate_schema] at h
  | .arr (x :: xs), s, h => by
      simp only [generate_schema] at h
      rw [except_bind_eq_ok] at h
      obtain ⟨items, hit, h⟩ := h
      cases h
      have := generate_schema_shape hit
      simp [schemaShape, schemaShapeEntries, this, Json.isObj]
  | .obj kvs, s, h => by
      simp only [generate_schema] at h
      rw [except_bind_eq_ok] at h
      obtain ⟨props, hpr, h⟩ := h
      cases h
      have := generate_schema_props_shape hpr
      simp [schemaShape, schemaShapeEntries, propsValShape, this, Json.isObj]

theorem generate_schema_props_shape : ∀ {kvs ps : List (String × Json)},
    generate_schema_props kvs = .ok ps → propsShapeEntries ps = true
  | [], ps, h => by
      cases h
      decide
  | (k, v) :: rest, ps, h => by
      simp only [generate_schema_props] at h
      rw [except_bind_eq_ok] at h
      obtain ⟨s, hs, h⟩ := h
      rw [except_bind_eq_ok] at h
      obtain ⟨rest2, hrest2, h⟩ := h
      cases h
      have h1 := generate_schema_shape hs
      have h2 := generate_schema_props_shape hrest2
      simp [propsShapeEntries, h1, h2]

end

theorem schemaShapeEntries_cons {k : String} {v : Json} {rest : List (String × Json)}
    (h : schemaShapeEntries ((k, v) :: rest) = true) :
    (if k = "properties" then propsValShape v
     else if k = "items" then schemaShape v
     else !v.isObj) = true ∧ schemaShapeEntries rest = true := by
  rw [schemaShapeEntries, Bool.and_eq_true] at h
  exact h

theorem propsShapeEntries_cons {k : String} {v : Json} {rest : List (String × Json)}
    (h : propsShapeEntries ((k, v) :: rest) = true) :
    schemaShape v = true ∧ propsShapeEntries rest = true := by
  rw [propsShapeEntries, Bool.and_eq_true] at h
  exact h

theorem shape_get_properties : ∀ {dk : List (String × Json)} {w : Json},
    schemaShapeEntries dk = true → jdictGet dk "properties" = some w →
    ∃ pw, w = .obj pw ∧ propsShapeEntries pw = true := by
  intro dk
  induction dk with
  | nil => intro w h hget; simp [jdictGet] at hget
  | cons kv rest ih =>
      intro w h hget
      obtain ⟨k, v⟩ := kv
      obtain ⟨hcond, hrest⟩ := schemaShapeEntries_cons h
      by_cases hk : k = "properties"
      · rw [jdictGet, if_pos hk] at hget
        cases Option.some.inj hget
        rw [if_pos hk] at hcond
        exact propsValShape_obj hcond
      · rw [jdictGet, if_neg hk] at hget
        exact ih hrest hget

theorem shape_get_items : ∀ {dk : List (String × Json)} {w : Json},
    schemaShapeEntries dk = true → jdictGet dk "items" = some w →
    schemaShape w = true := by
  intro dk
  induction dk with
  | nil => intro w h hget; simp [jdictGet] at hget
  | cons kv rest ih =>
      intro w h hget
      obtain ⟨k, v⟩ := kv
      obtain ⟨hcond, hrest⟩ := schemaShapeEntries_cons h
      by_cases hk : k = "items"
      · rw [jdictGet, if_pos hk] at hget
        cases Option.some.inj hget
        rw [if_neg (by rw [hk]; decide), if_pos hk] at hcond
        exact hcond
      · rw [jdictGet, if_neg hk] at hget
        exact ih hrest hget

theorem props_get : ∀ {dk : List (String × Json)} {name : String} {w : Json},
    propsShapeEntries dk = true → jdictGet dk name = some w →
    schemaShape w = true := by
  intro dk
  induction dk with
  | nil => intro name w h hget; simp [jdictGet] at hget
  | cons kv rest ih =>
      intro name w h hget
      obtain ⟨k, v⟩ := kv
      obtain ⟨hcond, hrest⟩ := propsShapeEntries_cons h
      by_cases hk : k = name
      · rw [jdictGet, if_pos hk] at hget
        cases Option.some.inj hget
        exact hcond
      · rw [jdictGet, if_neg hk] at hget
        exact ih hrest hget

theorem set_shape_properties : ∀ {dk pw : List (String × Json)},
    schemaShapeEntries dk = true → propsShapeEntries pw = true →
    schemaShapeEntries (jdictSet dk "properties" (.obj pw)) = true := by
  intro dk
  induction dk with
  | nil =>
      intro pw h hp
      rw [jdictSet, schemaShapeEntries, Bool.and_eq_true]
      exact ⟨by rw [if_pos rfl]; simp [propsValShape, hp], rfl⟩
  | cons kv rest ih =>
      intro pw h hp
      obtain ⟨k, v⟩ := kv
      obtain ⟨hcond, hrest⟩ := schemaShapeEntries_cons h
      by_cases hk : k = "properties"
      · rw [jdictSet, if_pos hk]
        rw [schemaShapeEntries, Bool.and_eq_true]
        exact ⟨by rw [if_pos rfl]; simp [propsValShape, hp], hrest⟩
      · rw [jdictSet, if_neg hk]
        rw [schemaShapeEntries, Bool.and_eq_true]
        exact ⟨hcond, ih hrest hp⟩

theorem set_shape_items : ∀ {dk : List (String × Json)} {w : Json},
    schemaShapeEntries dk = true → schemaShape w = true →
    schemaShapeEntries (jdictSet dk "items" w) = true := by
  intro dk
  induction dk with
  | nil =>
      intro w h hw
      rw [jdictSet, schemaShapeEntries, Bool.and_eq_true]
      exact ⟨by rw [if_neg (by decide), if_pos rfl]; exact hw, rfl⟩
  | cons kv rest ih =>
      intro w h hw
      obtain ⟨k, v⟩ := kv
      obtain ⟨hcond, hrest⟩ := schemaShapeEntries_cons h
      by_cases hk : k = "items"
      · rw [jdictSet, if_pos hk]
        rw [schemaShapeEntries, Bool.and_eq_true]
        exact ⟨by rw [if_neg (by decide), if_pos rfl]; exact hw, hrest⟩
      · rw [jdictSet, if_neg hk]
        rw [schemaShapeEntries, Bool.and_eq_true]
        exact ⟨hcond, ih hrest hw⟩

theorem set_shape_other : ∀ {dk : List (String × Json)} {k : String} {w : Json},
    schemaShapeEntries dk = true → k ≠ "properties" → k ≠ "items" →
    w.isObj = false →
    schemaShapeEntries (jdictSet dk k w) = true := by
  intro dk
  induction dk with
  | nil =>
      intro k w h h1 h2 hw
      rw [jdictSet, schemaShapeEntries, Bool.and_eq_true]
      exact ⟨by rw [if_neg h1, if_neg h2]; simp [hw], rfl⟩
  | cons kv rest ih =>
      intro k w h h1 h2 hw
      obtain ⟨k2, v⟩ := kv
      obtain ⟨hcond, hrest⟩ := schemaShapeEntries_cons h
      by_cases hk : k2 = k
      · rw [jdictSet, if_pos hk]
        rw [schemaShapeEntries, Bool.and_eq_true]
        exact ⟨by rw [if_neg h1, if_neg h2]; simp [hw], hrest⟩
      · rw [jdictSet, if_neg hk]
        rw [schemaShapeEntries, Bool.and_eq_true]
        exact ⟨hcond, ih hrest h1 h2 hw⟩

theorem props_set : ∀ {dk : List (String × Json)} {name : String} {w : Json},
    propsShapeEntries dk = true → schemaShape w = true →
    propsShapeEntries (jdictSet dk name w) = true := by
  intro dk
  induction dk with
  | nil =>
      intro name w h hw
      rw [jdictSet, propsShapeEntries, Bool.and_eq_true]
      exact ⟨hw, rfl⟩
  | cons kv rest ih =>
      intro name w h hw
      obtain ⟨k, v⟩ := kv
      obtain ⟨hcond, hrest⟩ := propsShapeEntries_cons h
      by_cases hk : k = name
      · rw [jdictSet, if_pos hk]
        rw [propsShapeEntries, Bool.and_eq_true]
        exact ⟨hw, hrest⟩
      · rw [jdictSet, if_neg hk]
        rw [propsShapeEntries, Bool.and_eq_true]
        exact ⟨hcond, ih hrest hw⟩

mutual

theorem update_go_schema_shape : ∀ (us dk : List (String × Json)),
    schemaShapeEntries us = true → schemaShapeEntries dk = true →
    ∃ rk, update_dict_go (.obj dk) us = .ok (.obj rk) ∧ schemaShapeEntries rk = true
  | [], dk, hus, hdk => ⟨dk, rfl, hdk⟩
  | (k, v) :: rest, dk, hus, hdk => by
      obtain ⟨hcond, hrest⟩ := schemaShapeEntries_cons hus
      by_cases hk : k = "properties"
      · rw [if_pos hk] at hcond
        obtain ⟨vo, hvo, hvoshape⟩ := propsValShape_obj hcond
        subst hvo
        subst hk
        have hsub : ∃ sk, (jdictGet dk "properties").getD (.obj []) = .obj sk ∧
            propsShapeEntries sk = true := by
          cases hget : jdictGet dk "properties" with
          | none => exact ⟨[], rfl, rfl⟩
          | some w =>
              obtain ⟨pw, hw, hpw⟩ := shape_get_properties hdk hget
              exact ⟨pw, by rw [hw]; rfl, hpw⟩
        obtain ⟨sk, hsk, hskshape⟩ := hsub
        obtain ⟨mk, hmk, hmkshape⟩ := update_go_props_shape vo sk hvoshape hskshape
        obtain ⟨rk, hrk, hrkshape⟩ := update_go_schema_shape rest
          (jdictSet dk "properties" (.obj mk)) hrest
          (set_shape_properties hdk hmkshape)
        refine ⟨rk, ?_, hrkshape⟩
        rw [update_dict_go_cons]
        simp only [update_dict_step, update_dict, hsk, hmk, except_ok_bind]
        exact hrk
      · by_cases hk2 : k = "items"
        · rw [if_neg hk, if_pos hk2] at hcond
          have hvobj : ∃ vo, v = .obj vo ∧ schemaShapeEntries vo = true := by
            cases v with
            | obj vo => exact ⟨vo, rfl, hcond⟩
            | null => simp [schemaShape] at hcond
            | bool b => simp [schemaShape] at hcond
            | num n => simp [schemaShape] at hcond
            | str s => simp [schemaShape] at hcond
            | arr l => simp [schemaShape] at hcond
          obtain ⟨vo, hvo, hvoshape⟩ := hvobj
          subst hvo
          subst hk2
          have hsub : ∃ sk, (jdictGet dk "items").getD (.obj []) = .obj sk ∧
              schemaShapeEntries sk = true := by
            cases hget : jdictGet dk "items" with
            | none => exact ⟨[], rfl, rfl⟩
            | some w =>
                have hw := shape_get_items hdk hget
                cases w with
                | obj wk => exact ⟨wk, rfl, hw⟩
                | null => simp [schemaShape] at hw
                | bool b => simp [schemaShape] at hw
                | num n => simp [schemaShape] at hw
                | str s => simp [schemaShape] at hw
                | arr l => simp [schemaShape] at hw
          obtain ⟨sk, hsk, hskshape⟩ := hsub
          obtain ⟨mk, hmk, hmkshape⟩ := update_go_schema_shape vo sk hvoshape hskshape
          obtain ⟨rk, hrk, hrkshape⟩ := update_go_schema_shape rest
            (jdictSet dk "items" (.obj mk)) hrest
            (set_shape_items hdk (by simpa [schemaShape] using hmkshape))
          refine ⟨rk, ?_, hrkshape⟩
          rw [update_dict_go_cons]
          simp only [update_dict_step, update_dict, hsk, hmk, except_ok_bind]
          exact hrk
        · rw [if_neg hk, if_neg hk2] at hcond
          have hvnotobj : v.isObj = false := by
            rw [Bool.not_eq_true'] at hcond
            exact hcond
          obtain ⟨rk, hrk, hrkshape⟩ := update_go_schema_shape rest
            (jdictSet dk k v) hrest (set_shape_other hdk hk hk2 hvnotobj)
          refine ⟨rk, ?_, hrkshape⟩
          rw [update_dict_go_cons, update_dict_step_of_leaf hvnotobj]
          simpa using hrk

termination_by us dk => sizeOf us
theorem update_go_props_shape : ∀ (us dk : List (String × Json)),
    propsShapeEntries us = true → propsShapeEntries dk = true →
    ∃ rk, update_dict_go (.obj dk) us = .ok (.obj rk) ∧ propsShapeEntries rk = true
  | [], dk, hus, hdk => ⟨dk, rfl, hdk⟩
  | (name, v) :: rest, dk, hus, hdk => by
      obtain ⟨hcond, hrest⟩ := propsShapeEntries_cons hus
      have hvobj : ∃ vo, v = .obj vo ∧ schemaShapeEntries vo = true := by
        cases v with
        | obj vo => exact ⟨vo, rfl, hcond⟩
        | null => simp [schemaShape] at hcond
        | bool b => simp [schemaShape] at hcond
        | num n => simp [schemaShape] at hcond
        | str s => simp [schemaShape] at hcond
        | arr l => simp [schemaShape] at hcond
      obtain ⟨vo, hvo, hvoshape⟩ := hvobj
      subst hvo
      have hsub : ∃ sk, (jdictGet dk name).getD (.obj []) = .obj sk ∧
          schemaShapeEntries sk = true := by
        cases hget : jdictGet dk name with
        | none => exact ⟨[], rfl, rfl⟩
        | some w =>
            have hw := props_get hdk hget
            cases w with
            | obj wk => exact ⟨wk, rfl, hw⟩
            | null => simp [schemaShape] at hw
            | bool b => simp [schemaShape] at hw
            | num n => simp [schemaShape] at hw
            | str s => simp [schemaShape] at hw
            | arr l => simp [schemaShape] at hw
      obtain ⟨sk, hsk, hskshape⟩ := hsub
      obtain ⟨mk, hmk, hmkshape⟩ := update_go_schema_shape vo sk hvoshape hskshape
      obtain ⟨rk, hrk, hrkshape⟩ := update_go_props_shape rest
        (jdictSet dk name (.obj mk)) hrest
        (props_set hdk (by simpa [schemaShape] using hmkshape))
      refine ⟨rk, ?_, hrkshape⟩
      rw [update_dict_go_cons]
      simp only [update_dict_step, update_dict, hsk, hmk, except_ok_bind]
      exact hrk
termination_by us dk => sizeOf us

end

theorem update_dict_shape {d u : Json} (hd : schemaShape d = true)
    (hu : schemaShape u = true) :
    ∃ r, update_dict d u = .ok r ∧ schemaShape r = true := by
  cases u with
  | obj us =>
      cases d with
      | obj dk =>
          obtain ⟨rk, hrk, hrkshape⟩ :=
            update_go_schema_shape us dk (by simpa [schemaShape] using hu)
              (by simpa [schemaShape] using hd)
          exact ⟨.obj rk, hrk, by simpa [schemaShape] using hrkshape⟩
      | null => simp [schemaShape] at hd
      | bool b => simp [schemaShape] at hd
      | num n => simp [schemaShape] at hd
      | str s => simp [schemaShape] at hd
      | arr l => simp [schemaShape] at hd
  | null => simp [schemaShape] at hu
  | bool b => simp [schemaShape] at hu
  | num n => simp [schemaShape] at hu
  | str s => simp [schemaShape] at hu
  | arr l => simp [schemaShape] at hu

/-- Shape of a stored response entry: a schema/description dict whose schema
is well shaped. -/
def respShape (r : Json) : Prop :=
  ∃ s, r = .obj [("schema", s), ("description", .str "TODO")] ∧ schemaShape s = true

theorem grp_shape (resp prev : Json)
    (hp : prev = .obj [] ∨ respShape prev) :
    generate_response_params resp prev = .error .emptyArray ∨
    ∃ r, generate_response_params resp prev = .ok r ∧ respShape r := by
  rcases gs_total resp with ⟨he, herr⟩ | ⟨he, s, hok⟩
  · left
    unfold generate_response_params
    rw [herr]
    rfl
  · right
    have hsshape := generate_schema_shape hok
    unfold generate_response_params
    rw [hok]
    simp only [except_ok_bind]
    rcases hp with hp | ⟨ps, hps, hpsshape⟩
    · subst hp
      rw [if_neg (by decide)]
      exact ⟨_, rfl, s, rfl, hsshape⟩
    · subst hps
      rw [if_pos (by simp [pyTruthy])]
      have hget : jdictGet [("schema", ps), ("description", Json.str "TODO")] "schema" =
          some ps := rfl
      obtain ⟨m, hm, hmshape⟩ := update_dict_shape hsshape hpsshape
      simp only [hget]
      unfold merge_response_schema
      rw [hm]
      simp only [except_ok_bind]
      exact ⟨_, rfl, m, rfl, hmshape⟩

theorem gen_request_params_any_prev {cfg : Config} {path : List Char}
    {req : Request} {r0 : List Json}
    (h : generate_request_params cfg path req [] = .ok r0) :
    ∀ prev, ∃ r, generate_request_params cfg path req prev = .ok r := by
  intro prev
  unfold generate_request_params at h ⊢
  rw [except_bind_eq_ok] at h
  obtain ⟨qps, hqps, h⟩ := h
  rw [except_bind_eq_ok] at h
  obtain ⟨comps, hcomps, h⟩ := h
  simp only [hqps, hcomps, except_ok_bind]
  rcases hd : req.data with _ | d
  · exact ⟨_, rfl⟩
  · rw [hd] at h
    dsimp only at h ⊢
    by_cases ht : pyTruthy d = true
    · rw [if_pos ht] at h ⊢
      rw [except_bind_eq_ok] at h
      obtain ⟨s, hs, h⟩ := h
      rw [hs]
      exact ⟨_, rfl⟩
    · rw [if_neg ht]
      exact ⟨_, rfl⟩

theorem jdictGet_mem {l : List (String × Json)} {k : String} {v : Json}
    (h : jdictGet l k = some v) : (k, v) ∈ l := by
  induction l with
  | nil => simp [jdictGet] at h
  | cons kv rest ih =>
      obtain ⟨k2, w⟩ := kv
      by_cases hk : k2 = k
      · rw [jdictGet, if_pos hk] at h
        cases Option.some.inj h
        subst hk
        exact List.mem_cons_self _ _
      · rw [jdictGet, if_neg hk] at h
        exact List.mem_cons_of_mem _ (ih h)

theorem jdictSet_mem {l : List (String × Json)} {k st : String} {v r : Json}
    (h : (st, r) ∈ jdictSet l k v) : (st = k ∧ r = v) ∨ (st, r) ∈ l := by
  induction l with
  | nil =>
      rw [jdictSet] at h
      rcases List.mem_singleton.mp h with h1
      rw [Prod.mk.injEq] at h1
      exact Or.inl h1
  | cons kv rest ih =>
      obtain ⟨k2, w⟩ := kv
      by_cases hk : k2 = k
      · rw [jdictSet, if_pos hk] at h
        rcases List.mem_cons.mp h with h1 | h1
        · rw [Prod.mk.injEq] at h1
          exact Or.inl h1
        · exact Or.inr (List.mem_cons_of_mem _ h1)
      · rw [jdictSet, if_neg hk] at h
        rcases List.mem_cons.mp h with h1 | h1
        · exact Or.inr (h1 ▸ List.mem_cons_self _ _)
        · rcases ih h1 with h2 | h2
          · exact Or.inl h2
          · exact Or.inr (List.mem_cons_of_mem _ h2)

theorem opGet_mem {l : List (String × Operation)} {k : String} {op : Operation}
    (h : opGet l k = some op) : (k, op) ∈ l := by
  induction l with
  | nil => simp [opGet] at h
  | cons kv rest ih =>
      obtain ⟨k2, w⟩ := kv
      by_cases hk : k2 = k
      · rw [opGet, if_pos hk] at h
        cases Option.some.inj h
        subst hk
        exact List.mem_cons_self _ _
      · rw [opGet, if_neg hk] at h
        exact List.mem_cons_of_mem _ (ih h)

theorem opSet_mem {l : List (String × Operation)} {k v : String} {o op : Operation}
    (h : (v, op) ∈ opSet l k o) : (v = k ∧ op = o) ∨ (v, op) ∈ l := by
  induction l with
  | nil =>
      rw [opSet] at h
      rcases List.mem_singleton.mp h with h1
      rw [Prod.mk.injEq] at h1
      exact Or.inl h1
  | cons kv rest ih =>
      obtain ⟨k2, w⟩ := kv
      by_cases hk : k2 = k
      · rw [opSet, if_pos hk] at h
        rcases List.mem_cons.mp h with h1 | h1
        · rw [Prod.mk.injEq] at h1
          exact Or.inl h1
        · exact Or.inr (List.mem_cons_of_mem _ h1)
      · rw [opSet, if_neg hk] at h
        rcases List.mem_cons.mp h with h1 | h1
        · exact Or.inr (h1 ▸ List.mem_cons_self _ _)
        · rcases ih h1 with h2 | h2
          · exact Or.inl h2
          · exact Or.inr (List.mem_cons_of_mem _ h2)

/-- Invariant of a stored operation: all response entries are well-shaped
response dicts, except a default entry holding the configured default. -/
def opInv (cfg : Config) (op : Operation) : Prop :=
  ∀ st r, (st, r) ∈ op.responses → respShape r ∨ (st = "default" ∧ cfg.default = some r)

/-- Invariant of the per-path schema dict. -/
def schInv (cfg : Config) (schema : List (String × Operation)) : Prop :=
  ∀ v op, (v, op) ∈ schema → opInv cfg op

theorem generate_path_step_ok {cfg : Config} {path : List Char}
    {schema : List (String × Operation)} {ex : Example}
    (hreq : ex.content_type = "application/json" →
      ∃ r0, generate_request_params cfg path ex.request [] = .ok r0)
    (hst : cfg.default = none ∨ ex.status_code ≠ "default")
    (hinv : schInv cfg schema) :
    ∃ sch2, generate_path_step cfg path schema ex = .ok sch2 ∧ schInv cfg sch2 := by
  unfold generate_path_step
  have hop0 : opInv cfg ((opGet schema (pyLower ex.request.method)).getD {}) := by
    cases hget : opGet schema (pyLower ex.request.method) with
    | none =>
        intro st r hmem
        simp [Operation.responses] at hmem
    | some op =>
        exact hinv _ op (opGet_mem hget)
  have hstep : ∀ (op2 : Operation), opInv cfg op2 →
      schInv cfg (opSet schema (pyLower ex.request.method)
        (match cfg.default with
         | some d => { op2 with responses := jdictSet op2.responses "default" d }
         | none => op2)) := by
    intro op2 hop2 v op hmem
    rcases opSet_mem hmem with ⟨hv, hop⟩ | hmem2
    · subst hop
      cases hdef : cfg.default with
      | none =>
          simpa [hdef] using hop2
      | some d =>
          simp only [hdef]
          intro st r hmem3
          rcases jdictSet_mem hmem3 with ⟨hst2, hr⟩ | hmem4
          · exact Or.inr ⟨hst2, by rw [hdef, hr]⟩
          · exact hop2 st r hmem4
    · exact hinv v op hmem2
  set op1 : Operation :=
    { (opGet schema (pyLower ex.request.method)).getD {} with
      description := if ex.description = "" then "TODO" else ex.description,
      summary := ex.summary } with hop1def
  have hop1 : opInv cfg op1 := by
    intro st r hmem
    exact hop0 st r hmem
  by_cases hct : ex.content_type = "application/json"
  · rw [if_pos hct]
    obtain ⟨r0, hr0⟩ := hreq hct
    have hp : (jdictGet op1.responses ex.status_code).getD (.obj []) = .obj [] ∨
        respShape ((jdictGet op1.responses ex.status_code).getD (.obj [])) := by
      cases hget : jdictGet op1.responses ex.status_code with
      | none => exact Or.inl rfl
      | some r =>
          rcases hop1 ex.status_code r (jdictGet_mem hget) with h1 | ⟨h1, h2⟩
          · exact Or.inr (by simpa using h1)
          · rcases hst with h3 | h3
            · rw [h3] at h2; exact absurd h2 (by simp)
            · exact absurd h1 h3
    dsimp only
    rcases grp_shape ex.respData _ hp with herr | ⟨r, hok, hrshape⟩
    · rw [herr]
      simp only [except_ok_bind]
      obtain ⟨ps, hps⟩ := gen_request_params_any_prev hr0 (op1.parameters.getD [])
      rw [hps]
      simp only [except_ok_bind]
      have h2 : opInv cfg { op1 with parameters := some ps } := by
        intro st r2 hmem
        exact hop1 st r2 hmem
      exact ⟨_, rfl, hstep { op1 with parameters := some ps } h2⟩
    · rw [hok]
      simp only [except_ok_bind]
      set opR : Operation :=
        { op1 with responses := jdictSet op1.responses ex.status_code r } with hopRdef
      have hopR : opInv cfg opR := by
        intro st r2 hmem
        rcases jdictSet_mem hmem with ⟨hst2, hr2⟩ | hmem2
        · exact Or.inl (hr2 ▸ hrshape)
        · exact hop1 st r2 hmem2
      obtain ⟨ps, hps⟩ := gen_request_params_any_prev hr0 (opR.parameters.getD [])
      rw [hps]
      simp only [except_ok_bind]
      have h2 : opInv cfg { opR with parameters := some ps } := by
        intro st r2 hmem
        exact hopR st r2 hmem
      exact ⟨_, rfl, hstep { opR with parameters := some ps } h2⟩
  · rw [if_neg hct]
    simp only [except_ok_bind]
    exact ⟨_, rfl, hstep op1 hop1⟩

/-- C4 (amended): an EmptyExampleArrayError arising from a response body is
always raised by the response generation and is caught at the per-example
boundary, so generation succeeds for every example list whose request-side
parameter generation succeeds (the request-side error is the uncaught one),
provided no example stores its response under the reserved default key when
a default response is configured. -/
theorem claim_C4_amended_response_catch :
    (∀ (resp prev : Json), emptyArrayOnTraversal resp = true →
      generate_response_params resp prev = .error .emptyArray) ∧
    (∀ (cfg : Config) (path : List Char) (exs : List Example),
      (∀ ex ∈ exs, ex.content_type = "application/json" →
        ∃ r0, generate_request_params cfg path ex.request [] = .ok r0) →
      (cfg.default = none ∨ ∀ ex ∈ exs, ex.status_code ≠ "default") →
      ∃ sch, generate_path cfg path exs = .ok sch) := by
  constructor
  · intro resp prev he
    rcases gs_total resp with ⟨_, herr⟩ | ⟨hne, _⟩
    · unfold generate_response_params
      rw [herr]
      rfl
    · rw [he] at hne
      exact absurd hne (by simp)
  · intro cfg path exs
    suffices h : ∀ (schema : List (String × Operation)), schInv cfg schema →
        (∀ ex ∈ exs, ex.content_type = "application/json" →
          ∃ r0, generate_request_params cfg path ex.request [] = .ok r0) →
        (cfg.default = none ∨ ∀ ex ∈ exs, ex.status_code ≠ "default") →
        ∃ sch, exs.foldlM (generate_path_step cfg path) schema = .ok sch by
      intro hreq hst
      exact h [] (by intro v op hmem; simp at hmem) hreq hst
    induction exs with
    | nil => intro schema hinv hreq hst; exact ⟨schema, rfl⟩
    | cons ex rest ih =>
        intro schema hinv hreq hst
        have hst1 : cfg.default = none ∨ ex.status_code ≠ "default" := by
          rcases hst with h1 | h1
          · exact Or.inl h1
          · exact Or.inr (h1 ex (List.mem_cons_self _ _))
        obtain ⟨sch2, hsch2, hinv2⟩ := generate_path_step_ok
          (hreq ex (List.mem_cons_self _ _)) hst1 hinv
        rw [List.foldlM_cons, hsch2]
        simp only [except_ok_bind]
        refine ih sch2 hinv2
          (fun e he hc => hreq e (List.mem_cons_of_mem _ he) hc) ?_
        rcases hst with h1 | h1
        · exact Or.inl h1
        · exact Or.inr (fun e he => h1 e (List.mem_cons_of_mem _ he))

/-- Witness for the amended C4: one example whose response body contains an
empty array still yields a generated schema (with the response entry
skipped), while the response generation itself reports the empty-array
error. -/
theorem claim_C4_amended_response_catch_witness :
    generate_response_params (.obj [("a", .arr [])]) (.obj []) =
      .error .emptyArray ∧
    ∃ sch, generate_path ({} : Config) "/x".data
      [{ request := { method := "GET" }, status_code := "200",
         respData := .obj [("a", .arr [])] }] = .ok sch :=
  ⟨claim_C4_amended_response_catch.1 (.obj [("a", .arr [])]) (.obj []) (by decide),
   claim_C4_amended_response_catch.2 {} "/x".data
     [{ request := { method := "GET" }, status_code := "200",
        respData := .obj [("a", .arr [])] }]
     (by
       intro ex hex hc
       rcases List.mem_singleton.mp hex with rfl
       exact ⟨[], by decide⟩)
     (Or.inl rfl)⟩

/-- C4 counterexample: an empty array in the request body raises
EmptyExampleArrayError outside the try/except around response generation,
so the error escapes generate_path to the caller instead of being treated
as skipping the example. -/
theorem claim_C4_counterexample :
    generate_path ({} : Config) "/x".data
      [{ request := { method := "GET", data := some (.obj [("a", .arr [])]) },
         status_code := "200", respData := .num 1 }] =
      .error .emptyArray :=
  by decide

/-!  Digits, parameter placeholders and path round-tripping (C9, C5)  -/

theorem digitChar_isDigit {k : Nat} (h : k < 10) : (Nat.digitChar k).isDigit = true := by
  interval_cases k <;> decide

theorem toDigitsCore_mem : ∀ (f n : Nat) (ds : List Char) (c : Char),
    c ∈ Nat.toDigitsCore 10 f n ds → c ∈ ds ∨ c.isDigit = true := by
  intro f
  induction f with
  | zero => intro n ds c h; exact Or.inl h
  | succ f ih =>
      intro n ds c h
      simp only [Nat.toDigitsCore] at h
      by_cases hz : n / 10 = 0
      · rw [if_pos hz] at h
        rcases List.mem_cons.mp h with h1 | h1
        · exact Or.inr (h1 ▸ digitChar_isDigit (Nat.mod_lt _ (by norm_num)))
        · exact Or.inl h1
      · rw [if_neg hz] at h
        rcases ih _ _ _ h with h1 | h1
        · rcases List.mem_cons.mp h1 with h2 | h2
          · exact Or.inr (h2 ▸ digitChar_isDigit (Nat.mod_lt _ (by norm_num)))
          · exact Or.inl h2
        · exact Or.inr h1

theorem natDigits_digit {n : Nat} {c : Char} (h : c ∈ natDigits n) :
    c.isDigit = true := by
  rcases toDigitsCore_mem (n + 1) n [] c h with h1 | h1
  · simp at h1
  · exact h1

theorem toDigitsCore_append : ∀ (f n : Nat) (ds : List Char),
    ∃ pre, Nat.toDigitsCore 10 f n ds = pre ++ ds := by
  intro f
  induction f with
  | zero => intro n ds; exact ⟨[], rfl⟩
  | succ f ih =>
      intro n ds
      simp only [Nat.toDigitsCore]
      by_cases hz : n / 10 = 0
      · rw [if_pos hz]
        exact ⟨[Nat.digitChar (n % 10)], rfl⟩
      · rw [if_neg hz]
        obtain ⟨pre, hpre⟩ := ih (n / 10) (Nat.digitChar (n % 10) :: ds)
        exact ⟨pre ++ [Nat.digitChar (n % 10)], by rw [hpre]; simp⟩

theorem natDigits_ne_nil (n : Nat) : natDigits n ≠ [] := by
  unfold natDigits Nat.toDigits
  simp only [Nat.toDigitsCore]
  by_cases hz : n / 10 = 0
  · rw [if_pos hz]; simp
  · rw [if_neg hz]
    obtain ⟨pre, hpre⟩ := toDigitsCore_append n (n / 10) [Nat.digitChar (n % 10)]
    rw [hpre]; simp

theorem isDigit_ne_newline {c : Char} (h : c.isDigit = true) : c ≠ '\n' := by
  intro he
  subst he
  exact absurd h (by decide)

theorem isDigit_ne_slash {c : Char} (h : c.isDigit = true) : c ≠ '/' := by
  intro he
  subst he
  exact absurd h (by decide)

theorem paramSeg_concat (i : Nat) :
    paramSeg i = ('{' :: ("param".data ++ natDigits i)) ++ ['}'] := by
  simp [paramSeg]

theorem param_pattern_match_paramSeg (i : Nat) :
    param_pattern_match (paramSeg i) = true := by
  have hlast : (paramSeg i).getLast? = some '}' := by
    rw [paramSeg_concat]
    exact List.getLast?_concat _
  unfold param_pattern_match
  rw [if_neg (by rw [hlast]; decide)]
  have hshape : paramSeg i = '{' :: ("param".data ++ (natDigits i ++ ['}'])) := by
    simp [paramSeg]
  rw [hshape]
  simp only [Bool.and_eq_true, decide_eq_true_eq]
  refine ⟨by trivial, ?_⟩
  have hlast2 : ("param".data ++ (natDigits i ++ ['}'])).getLast? = some '}' := by
    have : "param".data ++ (natDigits i ++ ['}']) =
        ("param".data ++ natDigits i) ++ ['}'] := by simp
    rw [this]
    exact List.getLast?_concat _
  rw [if_pos hlast2]
  have hdrop : ("param".data ++ (natDigits i ++ ['}'])).dropLast =
      "param".data ++ natDigits i := by
    have : "param".data ++ (natDigits i ++ ['}']) =
        ("param".data ++ natDigits i) ++ ['}'] := by simp
    rw [this]
    exact List.dropLast_concat
  rw [hdrop]
  simp only [Bool.and_eq_true, decide_eq_true_eq]
  refine ⟨by simp, ?_⟩
  rw [Bool.not_eq_true']
  rw [List.contains_eq_any_beq, List.any_eq_false]
  intro c hc
  rcases List.mem_append.mp hc with h1 | h1
  · simp only [beq_iff_eq]
    intro he
    subst he
    revert h1
    decide
  · simp only [beq_iff_eq]
    intro he
    exact isDigit_ne_newline (natDigits_digit h1) he.symm

theorem paramSeg_no_slash (i : Nat) : '/' ∉ paramSeg i := by
  intro h
  rcases List.mem_cons.mp h with h1 | h1
  · exact absurd h1 (by decide)
  rcases List.mem_append.mp h1 with h2 | h2
  · rcases List.mem_append.mp h2 with h3 | h3
    · revert h3; decide
    · exact isDigit_ne_slash (natDigits_digit h3) rfl
  · exact absurd (List.mem_singleton.mp h2) (by decide)

theorem is_param_paramSeg (i : Nat) (path : List Char) :
    is_param (paramSeg i) path = true := by
  simp [is_param, param_pattern_match_paramSeg]

theorem renderComponents_length : ∀ (c : Components) (i : Nat),
    (renderComponents i c).length = c.length := by
  intro c
  induction c with
  | nil => intro i; rfl
  | cons e rest ih =>
      intro i
      cases e with
      | some s => simp [renderComponents, ih]
      | none => simp [renderComponents, ih]

theorem renderComponents_no_slash : ∀ (c : Components) (i : Nat),
    (∀ s, some s ∈ c → '/' ∉ s) →
    ∀ seg ∈ renderComponents i c, '/' ∉ seg := by
  intro c
  induction c with
  | nil => intro i h seg hseg; simp [renderComponents] at hseg
  | cons e rest ih =>
      intro i h seg hseg
      cases e with
      | some s =>
          rcases List.mem_cons.mp hseg with h1 | h1
          · exact h1 ▸ h s (by simp)
          · exact ih i (fun s2 hs2 => h s2 (by simp [hs2])) seg h1
      | none =>
          rcases List.mem_cons.mp hseg with h1 | h1
          · exact h1 ▸ paramSeg_no_slash _
          · exact ih (i + 1) (fun s2 hs2 => h s2 (by simp [hs2])) seg h1

theorem renderComponents_map_paramize (path : List Char) :
    ∀ (c : Components) (i : Nat),
    (∀ s, some s ∈ c → param_pattern_match s = false ∧ py_isdigit s = false) →
    (renderComponents i c).map (fun e => if is_param e path then none else some e) = c := by
  intro c
  induction c with
  | nil => intro i h; rfl
  | cons e rest ih =>
      intro i h
      cases e with
      | some s =>
          have hs := h s (by simp)
          simp only [renderComponents, List.map_cons]
          rw [if_neg (by simp [is_param, hs.1, hs.2])]
          rw [ih i (fun s2 hs2 => h s2 (by simp [hs2]))]
      | none =>
          simp only [renderComponents, List.map_cons]
          rw [if_pos (is_param_paramSeg _ _)]
          rw [ih (i + 1) (fun s2 hs2 => h s2 (by simp [hs2]))]

theorem splitOn_no_sep : ∀ (xs l : List Char), l ∈ xs.splitOn '/' → '/' ∉ l := by
  intro xs
  induction xs with
  | nil =>
      intro l h
      simp only [List.splitOn, List.splitOnP_nil, List.mem_singleton] at h
      subst h
      simp
  | cons x rest ih =>
      intro l h
      rw [List.splitOn, List.splitOnP_cons] at h
      by_cases hx : x = '/'
      · rw [if_pos (by simp [hx])] at h
        rcases List.mem_cons.mp h with h1 | h1
        · subst h1; simp
        · exact ih l h1
      · rw [if_neg (by simp [hx])] at h
        cases hsp : rest.splitOnP (· == '/') with
        | nil => exact absurd hsp (List.splitOnP_ne_nil _ rest)
        | cons hd tl =>
            rw [hsp] at h
            simp only [List.modifyHead] at h
            rcases List.mem_cons.mp h with h1 | h1
            · subst h1
              intro hmem
              rcases List.mem_cons.mp hmem with h2 | h2
              · exact hx h2.symm
              · exact ih hd (by rw [List.splitOn, hsp]; exact List.mem_cons_self _ _) h2
            · exact ih l (by rw [List.splitOn, hsp]; exact List.mem_cons_of_mem _ h1)

theorem param_pattern_match_nil : param_pattern_match [] = false := rfl

theorem py_isdigit_nil : py_isdigit [] = false := rfl

/-- C9 (amended): with an empty basePath, for every component sequence whose
literal segments are slash-free and not parameter-like (as toComponents
produces) and which does not begin with an empty-string literal, building
the templated path and re-tokenizing with the same basePath reproduces the
sequence exactly: None at the original slots, the original literals
elsewhere. -/
theorem claim_C9_amended_roundtrip :
    ∀ (cfg : Config) (c : Components),
    cfg.base_path = [] →
    (∀ s, some s ∈ c →
      ('/' ∉ s ∧ param_pattern_match s = false ∧ py_isdigit s = false)) →
    c.head? ≠ some (some ([] : Seg)) →
    get_components cfg (build_paramaterized_path c) = .ok c := by
  intro cfg c hbase hlit hhead
  by_cases hcnil : c = []
  · subst hcnil
    unfold get_components build_paramaterized_path
    rw [hbase]
    rfl
  · have hner : renderComponents 0 c ≠ [] := by
      intro he
      have := renderComponents_length c 0
      rw [he] at this
      exact hcnil (List.length_eq_zero.mp this.symm)
    have hnos : ∀ l ∈ renderComponents 0 c, '/' ∉ l :=
      renderComponents_no_slash c 0 (fun s hs => (hlit s hs).1)
    have hsegs : (List.intercalate ['/'] (renderComponents 0 c)).splitOn '/' =
        renderComponents 0 c :=
      List.splitOn_intercalate _ '/' hnos hner
    have hsplit : (build_paramaterized_path c).splitOn '/' =
        [] :: renderComponents 0 c := by
      unfold build_paramaterized_path
      rw [List.splitOn, List.splitOnP_cons, if_pos (by simp)]
      rw [← List.splitOn, hsegs]
    have hmap : (((build_paramaterized_path c).splitOn '/').map
        (fun e => if is_param e (build_paramaterized_path c) then none else some e)) =
        some [] :: c := by
      rw [hsplit, List.map_cons]
      rw [if_neg (by simp [is_param, param_pattern_match_nil, py_isdigit_nil])]
      rw [renderComponents_map_paramize _ c 0
        (fun s hs => ⟨(hlit s hs).2.1, (hlit s hs).2.2⟩)]
    unfold get_components
    rw [hbase]
    simp only [hmap, List.splitOn_nil, List.map_cons, List.map_nil,
      List.length_cons, List.length_nil, Nat.zero_add, List.take_succ_cons,
      List.take_zero, List.drop_succ_cons, List.drop_zero]
    simp only [if_true]
    cases hc : c with
    | nil => exact absurd hc hcnil
    | cons e0 rest =>
        cases e0 with
        | none => rfl
        | some s =>
            have hs : s ≠ [] := by
              intro he
              rw [hc, he] at hhead
              simp at hhead
            dsimp only
            rw [if_neg hs]

/-- Witness for the amended C9 at a concrete component sequence with one
literal and one parameter slot. -/
theorem claim_C9_amended_roundtrip_witness :
    get_components ({} : Config)
      (build_paramaterized_path [some "users".data, none]) =
      .ok [some "users".data, none] :=
  claim_C9_amended_roundtrip {} [some "users".data, none] rfl
    (by intro s hs; rcases List.mem_cons.mp hs with h | h
        · cases Option.some.inj h; exact ⟨by decide, by decide, by decide⟩
        · simp at h)
    (by simp)

/-- C9 counterexample: with basePath /users, the raw path /users/users/1
tokenizes to the components (users, None); rebuilding gives the path
/users/\x7bparam1\x7d whose re-tokenization with the same basePath strips
the literal users as a base prefix and yields (None), not (users, None). -/
theorem claim_C9_counterexample :
    get_components { base_path := "/users".data } "/users/users/1".data =
      .ok [some "users".data, none] ∧
    build_paramaterized_path [some "users".data, none] = "/users/{param1}".data ∧
    get_components { base_path := "/users".data } "/users/{param1}".data =
      .ok [none] ∧
    ([none] : Components) ≠ [some "users".data, none] :=
  ⟨by decide, by decide, by decide, by decide⟩

/-!  Merge preservation (C5)  -/

/-- Invariant of a naive bucket key: non-empty, with slash-free non-parameter
literal segments, as get_components produces for well-formed raw paths. -/
def keyInv (c : Components) : Prop :=
  c ≠ [] ∧ ∀ s, some s ∈ c →
    ('/' ∉ s ∧ param_pattern_match s = false ∧ py_isdigit s = false)

theorem get_components_mem {cfg : Config} {p : List Char} {c : Components}
    (h : get_components cfg p = .ok c) :
    ∀ x ∈ c, x ∈ (p.splitOn '/').map (fun e => if is_param e p then none else some e) := by
  intro x hx
  unfold get_components at h
  simp only at h
  set mapped := (p.splitOn '/').map (fun e => if is_param e p then none else some e)
    with hmapped
  set base : List Seg := cfg.base_path.splitOn '/' with hbase
  by_cases hpre : mapped.take base.length = base.map some
  · rw [if_pos hpre] at h
    have hdropmem : ∀ y ∈ mapped.drop base.length, y ∈ mapped :=
      fun y hy => List.mem_of_mem_drop hy
    cases hd : mapped.drop base.length with
    | nil => rw [hd] at h; exact absurd h (by simp)
    | cons e0 rest =>
        rw [hd] at h
        cases e0 with
        | some s =>
            simp only at h
            by_cases hs : s = []
            · rw [if_pos hs] at h
              cases Except.ok.inj h
              exact hdropmem x (by rw [hd]; exact List.mem_cons_of_mem _ hx)
            · rw [if_neg hs] at h
              cases Except.ok.inj h
              exact hdropmem x (by rw [hd]; exact hx)
        | none =>
            simp only at h
            cases Except.ok.inj h
            exact hdropmem x (by rw [hd]; exact hx)
  · rw [if_neg hpre] at h
    cases hd : mapped with
    | nil => rw [hd] at h; exact absurd h (by simp)
    | cons e0 rest =>
        rw [hd] at h
        cases e0 with
        | some s =>
            simp only at h
            by_cases hs : s = []
            · rw [if_pos hs] at h
              cases Except.ok.inj h
              exact List.mem_cons_of_mem _ hx
            · rw [if_neg hs] at h
              cases Except.ok.inj h
              exact hx
        | none =>
            simp only at h
            cases Except.ok.inj h
            exact hx

theorem get_components_literals {cfg : Config} {p : List Char} {c : Components}
    (h : get_components cfg p = .ok c) :
    ∀ s, some s ∈ c →
      ('/' ∉ s ∧ param_pattern_match s = false ∧ py_isdigit s = false) := by
  intro s hs
  have hx := get_components_mem h (some s) hs
  rcases List.mem_map.mp hx with ⟨e, he, heq⟩
  by_cases hip : is_param e p = true
  · rw [if_pos hip] at heq
    exact absurd heq (by simp)
  · rw [if_neg hip] at heq
    cases Option.some.inj heq
    simp only [Bool.not_eq_true] at hip
    rw [is_param, Bool.or_eq_false_iff] at hip
    exact ⟨splitOn_no_sep p _ he, hip.1, hip.2⟩

theorem keys_any_eq {α : Type} (acc : List (Components × List α)) (c : Components) :
    acc.any (fun p => decide (p.1 = c)) = true ↔ c ∈ acc.map (fun p => p.1) := by
  rw [List.any_eq_true]
  constructor
  · rintro ⟨x, hx, hpx⟩
    exact (of_decide_eq_true hpx) ▸ List.mem_map_of_mem _ hx
  · intro h
    rcases List.mem_map.mp h with ⟨x, hx, hxe⟩
    exact ⟨x, hx, by simp [hxe]⟩

theorem map_ext_id {α : Type} {L : List (Components × List α)} {c2 : Components}
    {e1 : List α} (h : ∀ p ∈ L, p.1 ≠ c2) :
    L.map (fun p => if p.1 = c2 then (p.1, p.2 ++ e1) else p) = L := by
  induction L with
  | nil => rfl
  | cons p rest ih =>
      simp only [List.map_cons]
      rw [if_neg (h p (List.mem_cons_self _ _))]
      rw [ih (fun q hq => h q (List.mem_cons_of_mem _ hq))]

theorem filter_key_id {α : Type} {L : List (Components × List α)} {c1 : Components}
    (h : ∀ p ∈ L, p.1 ≠ c1) :
    L.filter (fun p => decide (p.1 ≠ c1)) = L := by
  induction L with
  | nil => rfl
  | cons p rest ih =>
      rw [List.filter_cons, if_pos (by simp [h p (List.mem_cons_self _ _)])]
      rw [ih (fun q hq => h q (List.mem_cons_of_mem _ hq))]

theorem ext_join_single {α : Type} :
    ∀ {L : List (Components × List α)} {c2 : Components} {e1 : List α},
    (L.map (fun p => p.1)).Nodup → c2 ∈ L.map (fun p => p.1) →
    ((L.map (fun p => if p.1 = c2 then (p.1, p.2 ++ e1) else p)).map
      (fun p => p.2)).flatten.Perm
      (((L.map (fun p => p.2)).flatten) ++ e1) := by
  intro L
  induction L with
  | nil => intro c2 e1 hnd hmem; simp at hmem
  | cons p rest ih =>
      intro c2 e1 hnd hmem
      obtain ⟨k, v⟩ := p
      simp only [List.map_cons, List.nodup_cons] at hnd
      by_cases hk : k = c2
      · have hrest : rest.map (fun p => if p.1 = c2 then (p.1, p.2 ++ e1) else p) = rest :=
          map_ext_id (fun q hq he => hnd.1 (by
            rw [← hk] at he; rw [← he]; exact List.mem_map_of_mem _ hq))
        simp only [List.map_cons, if_pos hk, hrest, List.flatten_cons]
        have h1 : (e1 ++ (rest.map (fun p => p.2)).flatten).Perm
            ((rest.map (fun p => p.2)).flatten ++ e1) := List.perm_append_comm
        have h2 := List.Perm.append_left v h1
        rw [List.append_assoc, List.append_assoc]
        exact h2
      · simp only [List.map_cons, if_neg hk, List.flatten_cons]
        have hmem2 : c2 ∈ rest.map (fun p => p.1) := by
          rcases List.mem_cons.mp hmem with h1 | h1
          · exact absurd h1.symm hk
          · exact h1
        have h3 := List.Perm.append_left v (@ih c2 e1 hnd.2 hmem2)
        rw [List.append_assoc]
        exact h3

theorem remove_entry_perm {α : Type} :
    ∀ {L : List (Components × List α)} {c1 : Components} {e1 : List α},
    (L.map (fun p => p.1)).Nodup → (c1, e1) ∈ L →
    ((((L.filter (fun p => decide (p.1 ≠ c1))).map (fun p => p.2)).flatten) ++ e1).Perm
      ((L.map (fun p => p.2)).flatten) := by
  intro L
  induction L with
  | nil => intro c1 e1 hnd hmem; simp at hmem
  | cons p rest ih =>
      intro c1 e1 hnd hmem
      obtain ⟨k, v⟩ := p
      simp only [List.map_cons, List.nodup_cons] at hnd
      by_cases hk : k = c1
      · have hv : v = e1 := by
          rcases List.mem_cons.mp hmem with h1 | h1
          · injection h1 with h1a h1b
            exact h1b.symm
          · exact absurd (by rw [hk]; exact List.mem_map_of_mem (fun p => p.1) h1) hnd.1
        subst hv
        rw [List.filter_cons, if_neg (by simp [hk])]
        rw [filter_key_id (fun q hq he => hnd.1 (by
            rw [← hk] at he; rw [← he]; exact List.mem_map_of_mem _ hq))]
        simp only [List.map_cons, List.flatten_cons]
        exact List.perm_append_comm
      · have hmem2 : (c1, e1) ∈ rest := by
          rcases List.mem_cons.mp hmem with h1 | h1
          · rw [Prod.mk.injEq] at h1
            exact absurd h1.1.symm hk
          · exact h1
        rw [List.filter_cons, if_pos (by simp [hk])]
        simp only [List.map_cons, List.flatten_cons]
        rw [List.append_assoc]
        exact List.Perm.append_left v (ih hnd.2 hmem2)

/-!  Refinement pass absorption (C1)  -/

theorem keys_filter_map {α : Type} (D : List (Components × List α)) (c1 : Components)
    (f : Components × List α → Components × List α)
    (hf : ∀ p, (f p).1 = p.1) :
    ((D.filter (fun p => decide (p.1 ≠ c1))).map f).map (fun p => p.1) =
      (D.map (fun p => p.1)).filter (fun k => decide (k ≠ c1)) := by
  induction D with
  | nil => rfl
  | cons p rest ih =>
      by_cases h : p.1 = c1
      · simp only [List.filter_cons, List.map_cons, h]
        rw [if_neg (by simp), if_neg (by simp)]
        exact ih
      · simp only [List.filter_cons, List.map_cons]
        rw [if_pos (by simp [h]), if_pos (by simp [h])]
        simp only [List.map_cons, hf]
        rw [ih]

theorem find_key_of_mem {α : Type} :
    ∀ (D : List (Components × List α)) (c1 : Components) (e1 : List α),
    (D.map (fun p => p.1)).Nodup → (c1, e1) ∈ D →
    D.find? (fun p => decide (p.1 = c1)) = some (c1, e1) := by
  intro D
  induction D with
  | nil => intro c1 e1 hnd h; simp at h
  | cons p rest ih =>
      intro c1 e1 hnd h
      obtain ⟨k, v⟩ := p
      by_cases hk : k = c1
      · subst hk
        rcases List.mem_cons.mp h with h1 | h1
        · rw [List.find?_cons_of_pos _ (by simp)]
          rw [Prod.mk.injEq] at h1
          simp [h1.1, h1.2]
        · exfalso
          have : k ∈ rest.map (fun p => p.1) :=
            List.mem_map_of_mem (fun p => p.1) h1
          simp only [List.map_cons, List.nodup_cons] at hnd
          exact hnd.1 this
      · rw [List.find?_cons_of_neg _ (by simp [hk])]
        rcases List.mem_cons.mp h with h1 | h1
        · rw [Prod.mk.injEq] at h1
          exact absurd h1.1.symm hk
        · simp only [List.map_cons, List.nodup_cons] at hnd
          exact ih c1 e1 hnd.2 h1

/-!  Full merge pipeline preservation (C5)  -/

theorem map_fst_ext {α : Type} (L : List (Components × List α)) (c : Components)
    (exs : List α) :
    ((L.map (fun p => if p.1 = c then (p.1, p.2 ++ exs) else p)).map (fun p => p.1)) =
      L.map (fun p => p.1) := by
  induction L with
  | nil => rfl
  | cons p rest ih =>
      by_cases h : p.1 = c
      · simp only [List.map_cons, if_pos h, ih]
      · simp only [List.map_cons, if_neg h, ih]

theorem keys_filter {α : Type} (D : List (Components × List α)) (c1 : Components) :
    ((D.filter (fun p => decide (p.1 ≠ c1))).map (fun p => p.1)) =
      (D.map (fun p => p.1)).filter (fun k => decide (k ≠ c1)) := by
  have h := keys_filter_map D c1 id (fun p => rfl)
  rw [List.map_id] at h
  exact h

theorem map_ext_nil {α : Type} (D : List (Components × List α)) (k : Components) :
    D.map (fun p => if p.1 = k then (p.1, p.2 ++ ([] : List α)) else p) = D := by
  have hfun : (fun p : Components × List α =>
      if p.1 = k then (p.1, p.2 ++ ([] : List α)) else p) = fun p => p := by
    funext p
    by_cases h : p.1 = k
    · rw [if_pos h, List.append_nil]
    · rw [if_neg h]
  rw [hfun]
  simp

theorem extendBucket_keys_nodup {α : Type} {acc : List (Components × List α)}
    {c : Components} {exs : List α}
    (hnd : (acc.map (fun p => p.1)).Nodup) :
    ((extendBucket acc c exs).map (fun p => p.1)).Nodup := by
  unfold extendBucket
  by_cases h : acc.any (fun p => decide (p.1 = c)) = true
  · rw [if_pos h, map_fst_ext]
    exact hnd
  · rw [if_neg h]
    have hc : c ∉ acc.map (fun p => p.1) :=
      fun hmem => h ((keys_any_eq acc c).mpr hmem)
    simp only [List.map_append, List.map_cons, List.map_nil]
    rw [List.nodup_append]
    refine ⟨hnd, List.nodup_singleton c, ?_⟩
    intro a ha hb
    rw [List.mem_singleton] at hb
    subst hb
    exact hc ha

theorem extendBucket_keys_sub {α : Type} (acc : List (Components × List α))
    (c : Components) (exs : List α) :
    ∀ k ∈ (extendBucket acc c exs).map (fun p => p.1),
      k ∈ acc.map (fun p => p.1) ∨ k = c := by
  intro k hk
  unfold extendBucket at hk
  by_cases h : acc.any (fun p => decide (p.1 = c)) = true
  · rw [if_pos h, map_fst_ext] at hk
    exact Or.inl hk
  · rw [if_neg h] at hk
    simp only [List.map_append, List.map_cons, List.map_nil] at hk
    rcases List.mem_append.mp hk with h1 | h1
    · exact Or.inl h1
    · exact Or.inr (by simpa using h1)

theorem extendBucket_perm {α : Type} {acc : List (Components × List α)}
    (c : Components) (exs : List α)
    (hnd : (acc.map (fun p => p.1)).Nodup) :
    (((extendBucket acc c exs).map (fun p => p.2)).flatten).Perm
      (((acc.map (fun p => p.2)).flatten) ++ exs) := by
  unfold extendBucket
  by_cases h : acc.any (fun p => decide (p.1 = c)) = true
  · rw [if_pos h]
    exact ext_join_single hnd ((keys_any_eq acc c).mp h)
  · rw [if_neg h]
    have he : ((acc ++ [(c, exs)]).map (fun p => p.2)).flatten =
        ((acc.map (fun p => p.2)).flatten) ++ exs := by
      simp
    rw [he]

/-- Joint invariant of the bucket dictionary: distinct keys, each a nonempty
component sequence with well-formed literal segments. -/
def bucketsInv {α : Type} (D : List (Components × List α)) : Prop :=
  ((D.map (fun p => p.1)).Nodup) ∧ ∀ k ∈ D.map (fun p => p.1), keyInv k

theorem naive_group_go_spec {α : Type} (cfg : Config) :
    ∀ (pte : List (List Char × List α)) (acc : List (Components × List α)),
    bucketsInv acc →
    (∀ pe ∈ pte, ∃ c, get_components cfg pe.1 = .ok c ∧ c ≠ []) →
    ∃ D, pte.foldlM (fun acc pe => do
        let c ← get_components cfg pe.1
        .ok (extendBucket acc c pe.2)) acc = .ok D ∧
      bucketsInv D ∧
      ((D.map (fun p => p.2)).flatten).Perm
        (((acc.map (fun p => p.2)).flatten) ++ (pte.map (fun p => p.2)).flatten) := by
  intro pte
  induction pte with
  | nil =>
      intro acc hinv hok
      refine ⟨acc, rfl, hinv, ?_⟩
      simp
  | cons pe rest ih =>
      intro acc hinv hok
      obtain ⟨c, hc, hcne⟩ := hok pe (List.mem_cons_self _ _)
      have hkc : keyInv c := ⟨hcne, get_components_literals hc⟩
      have hinv2 : bucketsInv (extendBucket acc c pe.2) := by
        refine ⟨extendBucket_keys_nodup hinv.1, ?_⟩
        intro k hk
        rcases extendBucket_keys_sub acc c pe.2 k hk with h1 | h1
        · exact hinv.2 k h1
        · subst h1
          exact hkc
      obtain ⟨D, hD, hDinv, hDperm⟩ := ih (extendBucket acc c pe.2) hinv2
        (fun q hq => hok q (List.mem_cons_of_mem _ hq))
      refine ⟨D, ?_, hDinv, ?_⟩
      · simp only [List.foldlM_cons]
        rw [hc]
        simp only [except_ok_bind]
        exact hD
      · refine hDperm.trans ?_
        refine (List.Perm.append_right ((rest.map (fun p => p.2)).flatten)
          (extendBucket_perm c pe.2 hinv.1)).trans ?_
        rw [List.map_cons, List.flatten_cons, ← List.append_assoc]

theorem refine_step_keys {α : Type} (D : List (Components × List α)) (c1 : Components) :
    ((refine_step D c1).map (fun p => p.1)).Sublist (D.map (fun p => p.1)) := by
  cases hf : D.find? (fun p => decide (p.1 ≠ c1) && component_matches c1 p.1) with
  | none =>
      have he : refine_step D c1 = D := by rw [refine_step, hf]
      rw [he]
  | some p2 =>
      have hkeq : (refine_step D c1).map (fun p => p.1) =
          (D.map (fun p => p.1)).filter (fun k => decide (k ≠ c1)) := by
        rw [refine_step, hf]
        exact keys_filter_map D c1 _ (fun p => by by_cases h : p.1 = p2.1 <;> simp [h])
      rw [hkeq]
      exact List.filter_sublist _

theorem refine_step_perm {α : Type} (D : List (Components × List α)) (c1 : Components)
    (hnd : (D.map (fun p => p.1)).Nodup) :
    (((refine_step D c1).map (fun p => p.2)).flatten).Perm
      ((D.map (fun p => p.2)).flatten) := by
  cases hf : D.find? (fun p => decide (p.1 ≠ c1) && component_matches c1 p.1) with
  | none =>
      have he : refine_step D c1 = D := by rw [refine_step, hf]
      rw [he]
  | some p2 =>
      have hpred := List.find?_some hf
      rw [Bool.and_eq_true] at hpred
      have hne : p2.1 ≠ c1 := of_decide_eq_true hpred.1
      have hp2mem : p2 ∈ D := List.mem_of_find?_eq_some hf
      have hp2filter : p2 ∈ D.filter (fun p => decide (p.1 ≠ c1)) :=
        List.mem_filter.mpr ⟨hp2mem, by simp [hne]⟩
      have hndf : ((D.filter (fun p => decide (p.1 ≠ c1))).map (fun p => p.1)).Nodup := by
        rw [keys_filter]
        exact List.Nodup.filter _ hnd
      by_cases hc1 : c1 ∈ D.map (fun p => p.1)
      · rcases List.mem_map.mp hc1 with ⟨q, hq, hq1⟩
        have hqmem : (c1, q.2) ∈ D := by
          rw [← hq1]
          exact hq
        have hfst := find_key_of_mem D c1 q.2 hnd hqmem
        have he : refine_step D c1 =
            (D.filter (fun p => decide (p.1 ≠ c1))).map
              (fun p => if p.1 = p2.1 then (p.1, p.2 ++ q.2) else p) := by
          rw [refine_step, hf, hfst]
          rfl
        rw [he]
        have hmemf : p2.1 ∈ (D.filter (fun p => decide (p.1 ≠ c1))).map (fun p => p.1) :=
          List.mem_map_of_mem _ hp2filter
        exact (ext_join_single hndf hmemf).trans (remove_entry_perm hnd hqmem)
      · have hnone : D.find? (fun p => decide (p.1 = c1)) = none := by
          rw [List.find?_eq_none]
          intro x hxmem hdec
          apply hc1
          rw [← of_decide_eq_true hdec]
          exact List.mem_map_of_mem _ hxmem
        have hfl : D.filter (fun p => decide (p.1 ≠ c1)) = D :=
          filter_key_id (fun q2 hq2 he2 =>
            hc1 (by rw [← he2]; exact List.mem_map_of_mem _ hq2))
        have he : refine_step D c1 = D := by
          rw [refine_step, hf, hnone, hfl]
          exact map_ext_nil D p2.1
        rw [he]

theorem refine_fold_spec {α : Type} :
    ∀ (ks : List Components) (D : List (Components × List α)),
    bucketsInv D →
    bucketsInv (ks.foldl refine_step D) ∧
      (((ks.foldl refine_step D).map (fun p => p.2)).flatten).Perm
        ((D.map (fun p => p.2)).flatten) := by
  intro ks
  induction ks with
  | nil =>
      intro D h
      exact ⟨h, List.Perm.refl _⟩
  | cons k rest ih =>
      intro D h
      have hsub := refine_step_keys D k
      have hinv2 : bucketsInv (refine_step D k) :=
        ⟨List.Nodup.sublist hsub h.1, fun k2 hk2 => h.2 k2 (hsub.subset hk2)⟩
      obtain ⟨hinv3, hperm⟩ := ih (refine_step D k) hinv2
      rw [List.foldl_cons]
      exact ⟨hinv3, hperm.trans (refine_step_perm D k h.1)⟩

theorem refine_pass_spec {α : Type} (D : List (Components × List α))
    (h : bucketsInv D) :
    bucketsInv (refine_pass D) ∧
      (((refine_pass D).map (fun p => p.2)).flatten).Perm
        ((D.map (fun p => p.2)).flatten) := by
  unfold refine_pass
  exact refine_fold_spec _ D h

theorem render_inj {c1 c2 : Components}
    (h1 : ∀ s, some s ∈ c1 → param_pattern_match s = false ∧ py_isdigit s = false)
    (h2 : ∀ s, some s ∈ c2 → param_pattern_match s = false ∧ py_isdigit s = false)
    (h : renderComponents 0 c1 = renderComponents 0 c2) : c1 = c2 := by
  have e1 := renderComponents_map_paramize [] c1 0 h1
  have e2 := renderComponents_map_paramize [] c2 0 h2
  rw [← e1, ← e2, h]

theorem build_inj {c1 c2 : Components} (k1 : keyInv c1) (k2 : keyInv c2)
    (h : build_paramaterized_path c1 = build_paramaterized_path c2) : c1 = c2 := by
  have hner1 : renderComponents 0 c1 ≠ [] := by
    intro he
    have hl := renderComponents_length c1 0
    rw [he] at hl
    exact k1.1 (List.length_eq_zero.mp hl.symm)
  have hner2 : renderComponents 0 c2 ≠ [] := by
    intro he
    have hl := renderComponents_length c2 0
    rw [he] at hl
    exact k2.1 (List.length_eq_zero.mp hl.symm)
  have hnos1 : ∀ l ∈ renderComponents 0 c1, '/' ∉ l :=
    renderComponents_no_slash c1 0 (fun s hs => (k1.2 s hs).1)
  have hnos2 : ∀ l ∈ renderComponents 0 c2, '/' ∉ l :=
    renderComponents_no_slash c2 0 (fun s hs => (k2.2 s hs).1)
  have hs1 : (List.intercalate ['/'] (renderComponents 0 c1)).splitOn '/' =
      renderComponents 0 c1 := List.splitOn_intercalate _ '/' hnos1 hner1
  have hs2 : (List.intercalate ['/'] (renderComponents 0 c2)).splitOn '/' =
      renderComponents 0 c2 := List.splitOn_intercalate _ '/' hnos2 hner2
  unfold build_paramaterized_path at h
  have hi := (List.cons.inj h).2
  have hr : renderComponents 0 c1 = renderComponents 0 c2 := by
    rw [← hs1, ← hs2, hi]
  exact render_inj (fun s hs => (k1.2 s hs).2) (fun s hs => (k2.2 s hs).2) hr

theorem pathSet_fresh {α : Type} (acc : List (List Char × List α)) (k : List Char)
    (v : List α) (h : ∀ q ∈ acc, k ≠ q.1) :
    pathSet acc k v = acc ++ [(k, v)] := by
  have hany : ¬ acc.any (fun p => decide (p.1 = k)) = true := by
    rw [List.any_eq_true]
    rintro ⟨q, hq, hdec⟩
    exact h q hq (of_decide_eq_true hdec).symm
  rw [pathSet, if_neg hany]

theorem pathSet_fold_map {α : Type} :
    ∀ (R : List (Components × List α)) (acc : List (List Char × List α)),
    ((R.map (fun p => p.1)).Nodup) → (∀ k ∈ R.map (fun p => p.1), keyInv k) →
    (∀ p ∈ R, ∀ q ∈ acc, build_paramaterized_path p.1 ≠ q.1) →
    R.foldl (fun acc2 ce => pathSet acc2 (build_paramaterized_path ce.1) ce.2) acc =
      acc ++ R.map (fun ce => (build_paramaterized_path ce.1, ce.2)) := by
  intro R
  induction R with
  | nil =>
      intro acc _ _ _
      simp
  | cons ce rest ih =>
      intro acc hnd hkinv hdisj
      simp only [List.map_cons, List.nodup_cons] at hnd
      have hk2 : ∀ k ∈ rest.map (fun p => p.1), keyInv k :=
        fun k hk => hkinv k (by simp [hk])
      have hdisj2 : ∀ p ∈ rest, ∀ q ∈ acc ++ [(build_paramaterized_path ce.1, ce.2)],
          build_paramaterized_path p.1 ≠ q.1 := by
        intro p hp q hq
        rcases List.mem_append.mp hq with h1 | h1
        · exact hdisj p (List.mem_cons_of_mem _ hp) q h1
        · rw [List.mem_singleton] at h1
          subst h1
          intro hb
          have hpk : keyInv p.1 := hk2 p.1 (List.mem_map_of_mem _ hp)
          have hck : keyInv ce.1 := hkinv ce.1 (by simp)
          have hpe := build_inj hpk hck hb
          exact hnd.1 (by rw [← hpe]; exact List.mem_map_of_mem (fun p => p.1) hp)
      simp only [List.foldl_cons]
      rw [pathSet_fresh acc (build_paramaterized_path ce.1) ce.2
        (fun q hq => hdisj ce (List.mem_cons_self _ _) q hq)]
      rw [ih (acc ++ [(build_paramaterized_path ce.1, ce.2)]) hnd.2 hk2 hdisj2]
      rw [List.append_assoc]
      rfl

/-- C5 (amended): the merge pipeline is not total, but on any input whose raw
paths all tokenize to nonempty component sequences, merge_examples succeeds
and the multiset of examples across the output buckets is exactly the multiset
of input examples: none dropped, none duplicated. -/
theorem claim_C5_amended_merge_preservation {α : Type} (cfg : Config)
    (pte : List (List Char × List α))
    (h : ∀ pe ∈ pte, ∃ c, get_components cfg pe.1 = .ok c ∧ c ≠ []) :
    ∃ out, merge_examples cfg pte = .ok out ∧
      ((out.map (fun p => p.2)).flatten).Perm ((pte.map (fun p => p.2)).flatten) := by
  obtain ⟨D, hD, hDinv, hDperm⟩ := naive_group_go_spec cfg pte []
    ⟨List.nodup_nil, by simp⟩ h
  obtain ⟨hRinv, hRperm⟩ := refine_pass_spec D hDinv
  have hfold := pathSet_fold_map (refine_pass D) [] hRinv.1 hRinv.2 (by simp)
  refine ⟨(refine_pass D).map (fun ce => (build_paramaterized_path ce.1, ce.2)), ?_, ?_⟩
  · unfold merge_examples naive_group
    rw [hD]
    simp only [except_ok_bind]
    rw [hfold]
    rw [List.nil_append]
  · have hsnd : (((refine_pass D).map
        (fun ce => (build_paramaterized_path ce.1, ce.2))).map (fun p => p.2)) =
        (refine_pass D).map (fun p => p.2) := by
      rw [List.map_map]
      rfl
    rw [hsnd]
    exact hRperm.trans hDperm

/-- Witness for the amended C5 at the two-path input /users/1 and /users/x:
merging succeeds and preserves the example multiset. -/
theorem claim_C5_amended_merge_preservation_witness :
    ∃ out, merge_examples ({} : Config)
        [("/users/1".data, [0]), ("/users/x".data, ([1] : List Nat))] = .ok out ∧
      ((out.map (fun p => p.2)).flatten).Perm
        (([("/users/1".data, [0]), ("/users/x".data, ([1] : List Nat))].map
          (fun p => p.2)).flatten) :=
  claim_C5_amended_merge_preservation {} _ (by
    intro pe hpe
    rcases List.mem_cons.mp hpe with h1 | h1
    · exact ⟨[some "users".data, none], by rw [h1]; decide, by decide⟩
    · rcases List.mem_cons.mp h1 with h2 | h2
      · exact ⟨[some "users".data, some "x".data], by rw [h2]; decide, by decide⟩
      · exact absurd h2 (by simp))

/-- C5 counterexample: the empty raw path tokenizes to an empty component
tuple after base-prefix stripping, so the components[0] access raises
IndexError out of merge_examples; the pipeline does have failure semantics. -/
theorem claim_C5_counterexample :
    merge_examples ({} : Config) [(("".data : List Char), [0])] =
      (.error .indexError : Except GenError (List (List Char × List Nat))) := by
  decide

/-- C1 (amended): when the refinement pass finds the first bucket c2 distinct
from c1 with component_matches c1 c2, bucket c1 is dropped (the surviving
keys are exactly the other keys), its examples are appended to c2's bucket,
and the direction is parameterized-absorbs-literal: at every position where
c1 and the surviving bucket c2 differ, c2 carries the parameter slot. -/
theorem claim_C1_amended_absorption :
    ∀ {α : Type} (D : List (Components × List α)) (c1 : Components)
      (p2 : Components × List α),
    D.find? (fun p => decide (p.1 ≠ c1) && component_matches c1 p.1) = some p2 →
    ((refine_step D c1).map (fun p => p.1) =
        (D.map (fun p => p.1)).filter (fun k => decide (k ≠ c1))) ∧
    (∀ e1, (D.map (fun p => p.1)).Nodup → (c1, e1) ∈ D →
        (p2.1, p2.2 ++ e1) ∈ refine_step D c1) ∧
    (component_matches c1 p2.1 = true ∧ c1 ≠ p2.1 ∧
      ∀ i, i < c1.length → c1.getD i none ≠ p2.1.getD i none →
        p2.1.getD i none = none) := by
  intro α D c1 p2 hfind
  have hpred := List.find?_some hfind
  rw [Bool.and_eq_true] at hpred
  have hne : p2.1 ≠ c1 := of_decide_eq_true hpred.1
  have hmatch : component_matches c1 p2.1 = true := hpred.2
  refine ⟨?_, ?_, hmatch, fun he => hne he.symm, ?_⟩
  · rw [refine_step, hfind]
    exact keys_filter_map D c1 _ (fun p => by by_cases h : p.1 = p2.1 <;> simp [h])
  · intro e1 hnd hmem
    rw [refine_step, hfind]
    have hfst := find_key_of_mem D c1 e1 hnd hmem
    rw [hfst]
    simp only [Option.map_some, Option.getD_some]
    have hp2mem : p2 ∈ D := List.mem_of_find?_eq_some hfind
    have hp2filter : p2 ∈ D.filter (fun p => decide (p.1 ≠ c1)) :=
      List.mem_filter.mpr ⟨hp2mem, by simp [hne]⟩
    have := List.mem_map_of_mem
      (fun p => if p.1 = p2.1 then (p.1, p.2 ++ e1) else p) hp2filter
    simpa using this
  · intro i hi hdiff
    rcases ((component_matches_iff c1 p2.1).mp hmatch).2 i hi with h | h
    · exact absurd h hdiff
    · exact h

/-- Witness for the amended C1: the all-literal bucket is absorbed into the
parameterized bucket, which survives with both example lists. -/
theorem claim_C1_amended_absorption_witness :
    ([some "users".data, none], ([1] : List Nat) ++ [2]) ∈
      refine_step
        [([some "users".data, none], [1]), ([some "users".data, some "x".data], [2])]
        [some "users".data, some "x".data] :=
  (claim_C1_amended_absorption
    [([some "users".data, none], ([1] : List Nat)),
     ([some "users".data, some "x".data], [2])]
    [some "users".data, some "x".data]
    ([some "users".data, none], [1]) (by decide)).2.1 [2] (by decide) (by decide)

/-- C1 counterexample: for the naive buckets of /users/1 and /users/x the
surviving bucket after merging is the parameterized one (templated path
/users/\x7bparam1\x7d), not the more literal /users/x as the claim states. -/
theorem claim_C1_counterexample :
    merge_examples ({} : Config) [("/users/1".data, [1]), ("/users/x".data, [2])] =
      .ok [("/users/{param1}".data, [1, 2])] ∧
    ([("/users/{param1}".data, [1, 2])].all
      (fun kv => decide (kv.1 ≠ "/users/x".data))) = true :=
  ⟨by decide, by decide⟩

/-!  Reference matching (C7)  -/

theorem match_props_spec (cfg : Config) :
    ∀ (props : List (String × Json)) (bkvs : List (String × Json))
      (props2 : List (String × Json)),
    match_references_props cfg props (.obj bkvs) = .ok props2 →
    props2.length = props.length ∧
    ∀ i, i < props.length →
      ((jdictGet bkvs (props.getD i ("", .null)).1 = none →
         props2.getD i ("", .null) = props.getD i ("", .null)) ∧
       (∀ bv, jdictGet bkvs (props.getD i ("", .null)).1 = some bv →
         ∃ m, match_references cfg (props.getD i ("", .null)).2 bv = .ok m ∧
           props2.getD i ("", .null) = ((props.getD i ("", .null)).1, m))) := by
  intro props
  induction props with
  | nil =>
      intro bkvs props2 h
      simp only [match_references_props] at h
      cases h
      exact ⟨rfl, fun i hi => absurd hi (by simp)⟩
  | cons pp rest ih =>
      intro bkvs props2 h
      obtain ⟨prop, psch⟩ := pp
      simp only [match_references_props, pyContains, except_ok_bind] at h
      cases hc : jdictGet bkvs prop with
      | some bv =>
          rw [hc] at h
          simp only [Option.isSome_some, if_true, pyGetItem, hc, except_ok_bind] at h
          rw [except_bind_eq_ok] at h
          obtain ⟨m, hm, h⟩ := h
          rw [except_bind_eq_ok] at h
          obtain ⟨rest2, hrest2, h⟩ := h
          cases h
          obtain ⟨hlen, hih⟩ := ih bkvs rest2 hrest2
          refine ⟨by simp [hlen], ?_⟩
          intro i hi
          cases i with
          | zero =>
              refine ⟨fun hnone => ?_, fun bv2 hbv2 => ?_⟩
              · simp only [List.getD_cons_zero] at hnone ⊢
                rw [hc] at hnone
                exact absurd hnone (by simp)
              · simp only [List.getD_cons_zero] at hbv2 ⊢
                rw [hc] at hbv2
                cases Option.some.inj hbv2
                exact ⟨m, hm, rfl⟩
          | succ j =>
              simp only [List.getD_cons_succ]
              exact hih j (by simpa using hi)
      | none =>
          rw [hc] at h
          simp only [Option.isSome_none, Bool.false_eq_true, if_false] at h
          rw [except_bind_eq_ok] at h
          obtain ⟨rest2, hrest2, h⟩ := h
          cases h
          obtain ⟨hlen, hih⟩ := ih bkvs rest2 hrest2
          refine ⟨by simp [hlen], ?_⟩
          intro i hi
          cases i with
          | zero =>
              refine ⟨fun hnone => rfl, fun bv2 hbv2 => ?_⟩
              simp only [List.getD_cons_zero] at hbv2
              rw [hc] at hbv2
              exact absurd hbv2 (by simp)
          | succ j =>
              simp only [List.getD_cons_succ]
              exact hih j (by simpa using hi)

/-- C7: on an object-typed schema node the reference matcher leaves a node
with a reference key untouched, returns the node unchanged for an empty
example mapping, otherwise replaces the whole node with a reference to the
first definition (in the supplied order) that validates, and when none
validates recurses into exactly the properties present in the example. -/
theorem claim_C7_match_references_spec :
    (∀ (cfg : Config) (skvs : List (String × Json)) (body : Json),
      (jdictGet skvs "$ref").isSome = true →
      match_references cfg (.obj skvs) body = .ok (.obj skvs)) ∧
    (∀ (cfg : Config) (skvs : List (String × Json)),
      jdictGet skvs "$ref" = none →
      jdictGet skvs "type" = some (.str "object") →
      match_references cfg (.obj skvs) (.obj []) = .ok (.obj skvs)) ∧
    (∀ (cfg : Config) (skvs : List (String × Json)) (body propsVal : Json)
       (name : String) (defn : Json),
      jdictGet skvs "$ref" = none →
      jdictGet skvs "type" = some (.str "object") →
      jdictGet skvs "properties" = some propsVal →
      body ≠ .obj [] →
      cfg.definitions.find? (fun nd => cfg.validate nd.2 body) = some (name, defn) →
      match_references cfg (.obj skvs) body =
        .ok (.obj [("$ref", .str ("#/definitions/" ++ name))])) ∧
    (∀ (cfg : Config) (skvs props : List (String × Json))
       (bkvs props2 : List (String × Json)),
      jdictGet skvs "$ref" = none →
      jdictGet skvs "type" = some (.str "object") →
      jdictGet skvs "properties" = some (.obj props) →
      Json.obj bkvs ≠ .obj [] →
      cfg.definitions.find? (fun nd => cfg.validate nd.2 (.obj bkvs)) = none →
      match_references_props cfg props (.obj bkvs) = .ok props2 →
      match_references cfg (.obj skvs) (.obj bkvs) =
        .ok (.obj (jdictSet skvs "properties" (.obj props2)))) ∧
    (∀ (cfg : Config) (props bkvs props2 : List (String × Json)),
      match_references_props cfg props (.obj bkvs) = .ok props2 →
      props2.length = props.length ∧
      ∀ i, i < props.length →
        ((jdictGet bkvs (props.getD i ("", .null)).1 = none →
           props2.getD i ("", .null) = props.getD i ("", .null)) ∧
         (∀ bv, jdictGet bkvs (props.getD i ("", .null)).1 = some bv →
           ∃ m, match_references cfg (props.getD i ("", .null)).2 bv = .ok m ∧
             props2.getD i ("", .null) = ((props.getD i ("", .null)).1, m)))) := by
  refine ⟨?_, ?_, ?_, ?_, ?_⟩
  · intro cfg skvs body href
    rw [match_references, if_pos href]
  · intro cfg skvs href hty
    rw [match_references, if_neg (by simp [href])]
    split
    · next h => rw [hty] at h; exact absurd h (by simp)
    · next t h =>
        rw [hty] at h
        cases Option.some.inj h
        rw [if_neg (by decide), if_pos rfl]
        split
        · rfl
        · next propsVal h2 => rw [if_pos rfl]
  · intro cfg skvs body propsVal name defn href hty hpr hbody hfind
    rw [match_references, if_neg (by simp [href])]
    split
    · next h => rw [hty] at h; exact absurd h (by simp)
    · next t h =>
        rw [hty] at h
        cases Option.some.inj h
        rw [if_neg (by decide), if_pos rfl]
        split
        · next h2 => rw [hpr] at h2; exact absurd h2 (by simp)
        · next propsVal2 h2 =>
            rw [hpr] at h2
            cases Option.some.inj h2
            rw [if_neg hbody]
            simp only [hfind]
  · intro cfg skvs props bkvs props2 href hty hpr hbody hfind hprops
    rw [match_references, if_neg (by simp [href])]
    split
    · next h => rw [hty] at h; exact absurd h (by simp)
    · next t h =>
        rw [hty] at h
        cases Option.some.inj h
        rw [if_neg (by decide), if_pos rfl]
        split
        · next h2 => rw [hpr] at h2; exact absurd h2 (by simp)
        · next propsVal2 h2 =>
            rw [hpr] at h2
            cases Option.some.inj h2
            rw [if_neg hbody]
            simp only [hfind, hprops, except_ok_bind]
  · intro cfg props bkvs props2 h
    exact match_props_spec cfg props bkvs props2 h

/-- Witness for C7 applying the first-validating-definition clause at a
concrete schema, body and definition index. -/
theorem claim_C7_match_references_spec_witness :
    match_references
      { definitions := [("D", .obj [("type", .str "object")])],
        validate := fun _ _ => true }
      (.obj [("type", .str "object"), ("properties", .obj [])])
      (.obj [("a", .num 1)]) =
      .ok (.obj [("$ref", .str "#/definitions/D")]) :=
  claim_C7_match_references_spec.2.2.1
    { definitions := [("D", .obj [("type", .str "object")])],
      validate := fun _ _ => true }
    [("type", .str "object"), ("properties", .obj [])]
    (.obj [("a", .num 1)]) (.obj []) "D" (.obj [("type", .str "object")])
    rfl rfl rfl (by decide) rfl

/-- C3 counterexample: two response examples for status 200 disagree on the
leaf type (string then number); the final response schema carries the
earlier example's type string, not the later example's type number as the
claim states. -/
theorem claim_C3_counterexample :
    generate_path ({} : Config) "/x".data
      [{ request := { method := "GET" }, status_code := "200", respData := .str "x" },
       { request := { method := "GET" }, status_code := "200", respData := .num 1 }] =
      .ok [("get",
        { responses := [("200", .obj [("schema", .obj [("type", .str "string")]),
            ("description", .str "TODO")])],
          description := "TODO", summary := "", parameters := some [] })] ∧
    Json.str "string" ≠ Json.str "number" := by
  refine ⟨by decide, by decide⟩

end Swagger
